import Mathlib

/-!
Shallow embedding of the rummy-backend game server
(validator.js, scoring.js, deck.js, elo.js, gameManager.js and the
socket-handler turn timer), together with theorems settling the frozen
claims about it.

Card tokens: the server represents a card as the string "RANK-SUIT"
(e.g. "A-H", "10-S") or one of the literal wildcard tokens
'JOKER' / 'J1' / 'J2'; `normalizeCard` rewrites the legacy "RS" form into
"RANK-SUIT", and `parseCard` splits a normalized token at the dash.  We
embed the (normalized, parsed) token space directly: a `Card` is either a
wildcard token (`jok 0/1/2` standing for 'JOKER'/'J1'/'J2' — kept distinct
because deadwood membership is decided by token equality) or a
rank/suit pair `mk rank suit`.  Equality of `Card`s coincides with string
equality of the corresponding normalized tokens.
-/

namespace Rummy

inductive Card where
  | jok (t : Fin 3)
  | mk (rank : String) (suit : String)
deriving DecidableEq, Repr

/-- `RANK_ORDER` from validator.js. -/
def RANK_ORDER : List String :=
  ["A", "2", "3", "4", "5", "6", "7", "8", "9", "10", "J", "Q", "K"]

/-- `SUITS` from validator.js / deck.js. -/
def SUITS : List String := ["H", "D", "C", "S"]

/-- `rankValue(rank)`: `RANK_ORDER.indexOf(rank)`, which is -1 when the
rank does not occur. -/
def rankValue (rank : String) : Int :=
  if rank ∈ RANK_ORDER then (RANK_ORDER.indexOf rank : Int) else -1

/-- `isWild(card, jokerRank)`: wildcard tokens are always wild; a
rank/suit card is wild when a joker rank is set (in JS both `null` and
the empty string are falsy) and its rank equals it. -/
def isWild (card : Card) (jokerRank : Option String) : Bool :=
  match card with
  | .jok _ => true
  | .mk rank _ =>
    match jokerRank with
    | some j => !j.isEmpty && rank == j
    | none => false

/-- The suit of a parsed card as used for the `bySuit` bucketing in
`isSequence`: wildcard tokens parse to `suit: null` and are skipped
(`if (!card.suit) continue`), as is an empty (falsy) suit string. -/
def Card.suitKey : Card → Option String
  | .jok _ => none
  | .mk _ suit => if suit.isEmpty then none else some suit

/-- The ranks of the non-wild cards of suit `s` in the group, in order:
the composition of the `bySuit[s]` bucket with the
`filter(c => !isWild(...))` step of `isSequence`.  Only the rank of each
such card is read afterwards (by the sort comparator and the scan), so we
keep just the ranks. -/
def suitRanks (group : List Card) (jokerRank : Option String) (s : String) : List String :=
  group.filterMap fun c =>
    match c with
    | .jok _ => none
    | .mk r t =>
      if t.isEmpty then none
      else if t = s && !(isWild (.mk r t) jokerRank) then some r else none

/-- The scan loop of `isSequence` over the sorted rank values:
`consecutive` starts at 1 and `wildCount` at `group.length - suitCards.length`;
a gap of 1 extends the run, a larger gap is bridged when enough wild cards
remain (consuming `diff - 1` of them), and otherwise the run resets to 1. -/
def seqScanAux : Int → List Int → Nat → Nat → Nat × Nat
  | _, [], consecutive, wildCount => (consecutive, wildCount)
  | prev, r :: rs, consecutive, wildCount =>
    let diff : Int := r - prev
    if diff = 1 then seqScanAux r rs (consecutive + 1) wildCount
    else if 1 < diff ∧ diff - 1 ≤ (wildCount : Int) then
      seqScanAux r rs (consecutive + diff.toNat) (wildCount - (diff - 1).toNat)
    else seqScanAux r rs 1 wildCount

/-- `isSequence(group, jokerRank)` from validator.js.  For each suit
occurring in the group it takes that suit's non-wild cards (an empty
bucket is skipped), sorts them by rank value (the comparator reads only
`rankValue`, so we sort the projected rank values; the scan result depends
only on them), runs the scan with `wildCount = group.length - suitCards.length`
(every other card of the group — wildcard, joker-rank or off-suit — counts
as a wild filler), and accepts when `consecutive + wildCount >= group.length`.
On `Card` inputs `parseCard` never fails, so the
`cards.length === 0` check is subsumed by the length-3 check. -/
def suitCheck (group : List Card) (jokerRank : Option String) (s : String) : Bool :=
  let sc := suitRanks group jokerRank s
  !sc.isEmpty &&
    match (sc.map rankValue).insertionSort (· ≤ ·) with
    | [] => false
    | r0 :: rest =>
      let res := seqScanAux r0 rest 1 (group.length - sc.length)
      group.length ≤ res.1 + res.2

def isSequence (group : List Card) (jokerRank : Option String) : Bool :=
  if group.length < 3 then false
  else (group.filterMap Card.suitKey).any (suitCheck group jokerRank)

/-- The ranks counted by `isSet`: wild cards are skipped, as is a card
whose rank is the empty string (`if (!card.rank) continue`; the wildcard
tokens are also skipped there since their parsed rank is `null`). -/
def nonWildRanks (group : List Card) (jokerRank : Option String) : List String :=
  group.filterMap fun c =>
    match c with
    | .jok _ => none
    | .mk r t =>
      if isWild (.mk r t) jokerRank then none
      else if r.isEmpty then none else some r

/-- `isSet(group, jokerRank)` from validator.js: at least 3 cards and at
most one distinct non-wild rank (`uniqueRanks.length` 0 — all wild — or 1). -/
def isSet (group : List Card) (jokerRank : Option String) : Bool :=
  if group.length < 3 then false
  else decide ((nonWildRanks group jokerRank).dedup.length ≤ 1)

/-- `group.some(c => isWild(c, jokerRank))` in `validateDeclare`. -/
def groupHasWild (group : List Card) (jokerRank : Option String) : Bool :=
  group.any fun c => isWild c jokerRank

inductive GroupClass where
  | pureSeq
  | impureSeq
  | set
  | invalid
deriving DecidableEq, Repr

/-- The classification chain in the `validateDeclare` loop body:
a sequence with no wild card is pure, a sequence with one is impure,
otherwise a set, otherwise the group is invalid. -/
def classifyGroup (group : List Card) (jokerRank : Option String) : GroupClass :=
  if isSequence group jokerRank && !groupHasWild group jokerRank then .pureSeq
  else if isSequence group jokerRank then .impureSeq
  else if isSet group jokerRank then .set
  else .invalid

/-- A submitted group: either the `{ cards: [...] }` object shape or a
plain array (both accepted by `validateDeclare` and `calculateDeadwood`;
`deadwoodPoints` in scoring.js only reads the object shape). -/
inductive Group where
  | withCards (cards : List Card)
  | bare (cards : List Card)
deriving DecidableEq, Repr

def Group.cards : Group → List Card
  | .withCards l => l
  | .bare l => l

inductive DeclareResult where
  | ok (pureSequences sequences sets : Nat)
  | err (reason : String)
deriving DecidableEq, Repr

def DeclareResult.valid : DeclareResult → Bool
  | .ok _ _ _ => true
  | .err _ => false

/-- The `for (const group of groupedCards)` loop of `validateDeclare`,
threading the three counters.  With the `Group` type every group has a
valid format, so the `Invalid group format` branch cannot fire. -/
def loopGroups (jokerRank : Option String) :
    List Group → Nat → Nat → Nat → DeclareResult
  | [], p, s, k => .ok p s k
  | g :: gs, p, s, k =>
    if g.cards.length < 3 then .err "Groups must have at least 3 cards"
    else
      match classifyGroup g.cards jokerRank with
      | .pureSeq => loopGroups jokerRank gs (p + 1) s k
      | .impureSeq => loopGroups jokerRank gs p (s + 1) k
      | .set => loopGroups jokerRank gs p s (k + 1)
      | .invalid => .err "Invalid group: not a sequence or set"

/-- `validateDeclare(gameType, cards, groupedCards, jokerRank)` from
validator.js.  `cards` is always an array here, so the
`!Array.isArray(cards)` branch cannot fire. -/
def validateDeclare (gameType : Nat) (cards : List Card) (groupedCards : List Group)
    (jokerRank : Option String) : DeclareResult :=
  let expectedCount := if gameType = 21 then 21 else 13
  if cards.length ≠ expectedCount then
    .err ("Must have " ++ toString expectedCount ++ " cards")
  else if groupedCards.isEmpty then .err "Invalid grouping"
  else
    match loopGroups jokerRank groupedCards 0 0 0 with
    | .err r => .err r
    | .ok pureSequences sequences sets =>
      if gameType = 13 then
        if pureSequences < 1 then .err "13-card: Need at least 1 pure sequence"
        else if pureSequences + sequences < 2 then
          .err "13-card: Need at least 2 sequences total"
        else .ok pureSequences sequences sets
      else if gameType = 21 then
        if pureSequences < 3 then .err "21-card: Need at least 3 pure sequences"
        else if pureSequences + sequences < 4 then
          .err "21-card: Need at least 4 sequences total"
        else .ok pureSequences sequences sets
      else .ok pureSequences sequences sets

/-- `calculateDeadwood(cards, groupedCards)` from validator.js: the hand
cards whose token occurs in no submitted group (a JS `Set` of tokens,
i.e. membership up to token equality; both group shapes are read). -/
def calculateDeadwood (cards : List Card) (groupedCards : List Group) : List Card :=
  let grouped := groupedCards.flatMap Group.cards
  cards.filter fun c => decide (c ∉ grouped)

/-- `CARD_POINTS` from scoring.js. -/
def CARD_POINTS : List (String × Nat) :=
  [("A", 10), ("2", 2), ("3", 3), ("4", 4), ("5", 5), ("6", 6), ("7", 7),
   ("8", 8), ("9", 9), ("10", 10), ("J", 10), ("Q", 10), ("K", 10)]

/-- `cardPoint(card)` from scoring.js: wildcard tokens are worth 0, any
other card looks its rank up in `CARD_POINTS` with `|| 10` as the default
(no rank maps to 0, so JS falsiness is plain lookup failure). -/
def cardPoint : Card → Nat
  | .jok _ => 0
  | .mk r _ => ((CARD_POINTS.lookup r).getD 10)

/-- `deadwoodPoints(cards, groupedCards)` from scoring.js: sums
`cardPoint` over the hand cards whose token occurs in no group, where —
unlike `calculateDeadwood` — only groups in the `{ cards: [...] }` shape
contribute their tokens. -/
def deadwoodPoints (cards : List Card) (groupedCards : List Group) : Nat :=
  let grouped := groupedCards.flatMap fun g =>
    match g with
    | .withCards l => l
    | .bare _ => []
  (cards.filter fun c => decide (c ∉ grouped)).foldl (fun acc c => acc + cardPoint c) 0

/-! ## ELO rating (elo.js)

The JS arithmetic is IEEE double arithmetic; we embed it over ℚ.
`Math.pow(10, (Rb - Ra) / 400)` is irrational for general ratings, so it
is abstracted as a parameter `tenPow`; the theorems below only exercise
it at exponent 0, where both the real function and the floating-point one
are exactly 1 (and where every other operation involved — halving,
adding integers — is exact in doubles, so the ℚ model agrees with the JS
computation).  Ratings are integers end-to-end in this codebase: they are
stored in redis as `Math.round` results with default 1000. -/

structure EloOpponent where
  rating : Int
  won : Bool
deriving DecidableEq, Repr

/-- `getKFactor(totalGames)`: 40 below 30 games, 32 from then on. -/
def getKFactor (totalGames : Nat) : Nat :=
  if totalGames < 30 then 40 else 32

/-- `expectedScore(ratingA, ratingB) = 1 / (1 + 10^((Rb-Ra)/400))`. -/
def expectedScore (tenPow : ℚ → ℚ) (ratingA ratingB : Int) : ℚ :=
  1 / (1 + tenPow (((ratingB : ℚ) - (ratingA : ℚ)) / 400))

/-- The per-opponent actual score summed by `calculateNewRating`'s loop:
a winner scores 1 against every opponent; a loser scores 0 against the
winner and 0.5 against a fellow loser. -/
def actualScore (won : Bool) (opponent : EloOpponent) : ℚ :=
  if won then 1 else if opponent.won then 0 else 1/2

/-- The `actualSum / opponents.length` average inside `calculateNewRating`. -/
def actualScoreAvg (won : Bool) (opponents : List EloOpponent) : ℚ :=
  (opponents.map (actualScore won)).sum / (opponents.length : ℚ)

/-- The `expectedSum / opponents.length` average inside `calculateNewRating`. -/
def expectedScoreAvg (tenPow : ℚ → ℚ) (currentRating : Int)
    (opponents : List EloOpponent) : ℚ :=
  (opponents.map fun o => expectedScore tenPow currentRating o.rating).sum /
    (opponents.length : ℚ)

/-- `calculateNewRating(currentRating, totalGames, won, opponents)` from
elo.js (JS `Math.round(x)` is `⌊x + 1/2⌋`, which is Mathlib's `round`). -/
def calculateNewRating (tenPow : ℚ → ℚ) (currentRating : Int) (totalGames : Nat)
    (won : Bool) (opponents : List EloOpponent) : Int :=
  if opponents.isEmpty then currentRating
  else
    let K := getKFactor totalGames
    let ratingChange : ℚ :=
      (K : ℚ) * (actualScoreAvg won opponents -
        expectedScoreAvg tenPow currentRating opponents)
    round ((currentRating : ℚ) + ratingChange)

/-! ## Deck construction (deck.js) -/

/-- `createDeck(numDecks, useJokers)`: `numDecks` copies of the 52-card
deck (suits × ranks, rank varying fastest) plus two 'JOKER' tokens. -/
def createDeck (numDecks : Nat) (useJokers : Bool) : List Card :=
  ((List.range numDecks).flatMap fun _ =>
    SUITS.flatMap fun s => RANK_ORDER.map fun r => Card.mk r s)
  ++ (if useJokers then [Card.jok 0, Card.jok 0] else [])

/-- `getDecksForPlayers(playerCount, cardsPerPlayer, numDecks, useJokers)`:
throws when the deck cannot cover `players × cardsPerPlayer + 1` cards
(the throw is caught by the socket handler and surfaces as a failure). -/
def getDecksForPlayers (playerCount cardsPerPlayer numDecks : Nat) (useJokers : Bool) :
    Except String (List Card) :=
  let deck := createDeck numDecks useJokers
  let totalCardsNeeded := playerCount * cardsPerPlayer + 1
  if deck.length < totalCardsNeeded then .error "Not enough cards"
  else .ok deck

/-! ## Rooms and the session-engine transitions (gameManager.js)

`Room` keeps the fields the session engine reads or writes; `roomId`,
`maxPlayers`, `practiceMode`, `creatorUserId`, `joker` (an alias of
`jokerCard`), the timer handles and `createdAt` are never touched by the
transitions below and are omitted.  Likewise `Player` keeps `userId` and
`isBot`; `id`, `name` and `disconnected` are not read by the engine.

JS arrays are used as stacks here (`push`/`pop` at the END of the array);
a Lean list represents the array in the same order, so `pop` is
`getLast?`/`dropLast` and `push` is `· ++ [·]`.  `room.hands` is a JS
object keyed by userId; absent keys read as `undefined`, modelled by
`String → Option (List Card)`.

Each transition receives the room record, performs the in-place mutations
of the JS code, and returns an `Outcome`: the `{ok:false, reason}` early
returns carry the room exactly as mutated up to that point (`error = some
reason`), and `saved` records whether `redis.saveRoom(room)` ran.  A
JS expression that would throw (`room.players[i].userId` with `i` out of
range) is modelled as an error outcome, since the socket handlers catch
and acknowledge such exceptions.  `shuffle` lives in shuffle.js, which is
not part of the sources; per the spec it is a uniform permutation, so the
transitions take it as a function parameter and the theorems assume it
permutes its input. -/

structure Player where
  userId : String
  isBot : Bool
deriving DecidableEq, Repr

structure Room where
  gameType : Nat
  players : List Player
  gameState : String
  deck : List Card
  discardPile : List Card
  jokerCard : Option String
  currentTurnIndex : Nat
  turnExpiresAt : Option Int
  hands : String → Option (List Card)
  winnerIndex : Option Nat

structure Outcome where
  error : Option String
  room : Room
  saved : Bool

/-- `room.hands[userId] = h` (JS object key assignment). -/
def setHand (hands : String → Option (List Card)) (uid : String) (h : List Card) :
    String → Option (List Card) :=
  fun u => if u = uid then some h else hands u

/-- `gameType === 21 ? 21 : 13` (`cardsPerPlayer` / `expectedCount`). -/
def cardsPerPlayerOf (gameType : Nat) : Nat :=
  if gameType = 21 then 21 else 13

/-- The inner dealing loop of `startGame`: draw `n` cards by popping the
deck, guarded by `if (deck.length > 0)`; the hand lists cards in pop
order. -/
def drawN : Nat → List Card → List Card × List Card
  | 0, deck => ([], deck)
  | n + 1, deck =>
    match deck.getLast? with
    | none => ([], deck)
    | some c =>
      let rest := drawN n deck.dropLast
      (c :: rest.1, rest.2)

/-- The outer dealing loop of `startGame`: each player in order is dealt
`n` cards, stored under their userId. -/
def dealHands : List Player → Nat → List Card →
    (String → Option (List Card)) → (String → Option (List Card)) × List Card
  | [], _, deck, hands => (hands, deck)
  | p :: ps, n, deck, hands =>
    let d := drawN n deck
    dealHands ps n d.2 (setHand hands p.userId d.1)

/-- `startGame(room, redis)` from gameManager.js.  The deck is shuffled,
one card is flipped to start the discard pile (fixing `jokerCard` from
its rank; a 'JOKER' starter has no dash, so the joker rank stays null),
and each player is dealt `cardsPerPlayer` cards by popping the same deck
array, which therefore ends up as the remaining draw pile. -/
def startGame (shuffle : List Card → List Card) (room : Room) : Outcome :=
  if room.gameState ≠ "waiting" then ⟨some "Game already started", room, false⟩
  else if room.players.length < 2 then ⟨some "Need at least 2 players", room, false⟩
  else
    let cardsPerPlayer := cardsPerPlayerOf room.gameType
    match getDecksForPlayers room.players.length cardsPerPlayer 2 true with
    | .error e => ⟨some e, room, false⟩
    | .ok deck0 =>
      let deck1 := shuffle deck0
      match deck1.getLast? with
      | none => ⟨some "TypeError", room, false⟩
      | some top =>
        let jokerRank : Option String :=
          match top with
          | .mk r _ => some r
          | .jok _ => none
        let dealt := dealHands room.players cardsPerPlayer deck1.dropLast (fun _ => none)
        ⟨none,
         { room with
            deck := dealt.2
            discardPile := [top]
            jokerCard := jokerRank
            gameState := "playing"
            currentTurnIndex := 0
            hands := dealt.1 },
         true⟩

/-- `pickCard(room, userId, source, redis)` from gameManager.js.  The two
branches marked `TypeError` model JS exceptions on unreachable states
(`players[currentTurnIndex]` undefined; popping an empty recycled deck,
which cannot happen when `shuffle` permutes a non-empty pile). -/
def pickCard (shuffle : List Card → List Card) (room : Room)
    (userId source : String) : Outcome :=
  if room.gameState ≠ "playing" then ⟨some "Game not in progress", room, false⟩
  else
    match room.players.get? room.currentTurnIndex with
    | none => ⟨some "TypeError", room, false⟩
    | some currentPlayer =>
      if currentPlayer.userId ≠ userId then ⟨some "Not your turn", room, false⟩
      else
        match room.hands userId with
        | none => ⟨some "Hand not found", room, false⟩
        | some hand =>
          if source = "deck" then
            let recycled : Option Room :=
              if room.deck.isEmpty then
                if 1 < room.discardPile.length then
                  match room.discardPile.getLast? with
                  | some top =>
                    some { room with
                            deck := shuffle room.discardPile.dropLast
                            discardPile := [top] }
                  | none => none
                else none
              else some room
            match recycled with
            | none => ⟨some "No cards available", room, false⟩
            | some room1 =>
              match room1.deck.getLast? with
              | some card =>
                ⟨none,
                 { room1 with
                    deck := room1.deck.dropLast
                    hands := setHand room1.hands userId (hand ++ [card]) },
                 true⟩
              | none => ⟨some "TypeError", room1, false⟩
          else if source = "discard" then
            match room.discardPile.getLast? with
            | none => ⟨some "Discard pile is empty", room, false⟩
            | some card =>
              ⟨none,
               { room with
                  discardPile := room.discardPile.dropLast
                  hands := setHand room.hands userId (hand ++ [card]) },
               true⟩
          else ⟨some "Invalid source", room, false⟩

/-- `hand.splice(hand.indexOf(card), 1)`: remove the first occurrence. -/
def removeFirst : List Card → Card → List Card
  | [], _ => []
  | c :: cs, x => if c = x then cs else c :: removeFirst cs x

/-- `discardCard(room, userId, card, redis)` from gameManager.js: the
current player moves a held card from their hand onto the discard pile,
the turn index advances modulo the player count and a fresh 30-second
deadline is set (`now` is `Date.now()` in milliseconds). -/
def discardCard (room : Room) (userId : String) (card : Card) (now : Int) : Outcome :=
  if room.gameState ≠ "playing" then ⟨some "Game not in progress", room, false⟩
  else
    match room.players.get? room.currentTurnIndex with
    | none => ⟨some "TypeError", room, false⟩
    | some currentPlayer =>
      if currentPlayer.userId ≠ userId then ⟨some "Not your turn", room, false⟩
      else
        match room.hands userId with
        | none => ⟨some "Hand not found", room, false⟩
        | some hand =>
          if card ∉ hand then ⟨some "Card not in hand", room, false⟩
          else
            ⟨none,
             { room with
                hands := setHand room.hands userId (removeFirst hand card)
                discardPile := room.discardPile ++ [card]
                currentTurnIndex := (room.currentTurnIndex + 1) % room.players.length
                turnExpiresAt := some (now + 30 * 1000) },
             true⟩

/-- `declare(room, userId, cards, groupedCards, redis)` from
gameManager.js.  A missing grouping defaults to the single group
`[{cards}]`.  On success the game ends and the winner index is fixed; the
deadwood and score computations after that point only read state, so they
do not appear in the room record. -/
def declare (room : Room) (userId : String) (cards : List Card)
    (groupedCards : Option (List Group)) : Outcome :=
  if room.gameState ≠ "playing" then ⟨some "Game not in progress", room, false⟩
  else
    match room.players.get? room.currentTurnIndex with
    | none => ⟨some "TypeError", room, false⟩
    | some currentPlayer =>
      if currentPlayer.userId ≠ userId then ⟨some "Not your turn", room, false⟩
      else
        match room.hands userId with
        | none => ⟨some "Hand not found", room, false⟩
        | some hand =>
          if hand.length ≠ cards.length then ⟨some "Card count mismatch", room, false⟩
          else
            let groups := groupedCards.getD [Group.withCards cards]
            match validateDeclare room.gameType cards groups room.jokerCard with
            | .err reason => ⟨some reason, room, false⟩
            | .ok _ _ _ =>
              ⟨none,
               { room with
                  gameState := "ended"
                  winnerIndex := some room.currentTurnIndex },
               true⟩

/-- `botPlay(room, redis)` from gameManager.js.  When the current player
is not a bot the function plainly returns (no save).  Otherwise the bot
pops the deck into its hand when the deck is non-empty (there is no
recycling path here), then — when the resulting hand is non-empty —
splices out the card at index `⌊Math.random() * hand.length⌋` (passed in
as `randIdx`; it is always < the hand length since `Math.random() < 1`,
so the unreachable out-of-range branch leaves the room as is) and pushes
it onto the discard pile, and finally advances the turn with a fresh
30-second deadline exactly as `discardCard` does.  The body of the
bot branch (everything after the `isBot` guard) is `botPlayCore`;
`botPlay` below adds the guard and the surrounding outcome. -/
def botPlayCore (room : Room) (botUserId : String) (randIdx : Nat) (now : Int) : Room :=
  let hand := (room.hands botUserId).getD []
  let afterPick : Room × List Card :=
    match room.deck.getLast? with
    | some card =>
      ({ room with
          deck := room.deck.dropLast
          hands := setHand room.hands botUserId (hand ++ [card]) },
       hand ++ [card])
    | none => (room, hand)
  let room1 := afterPick.1
  let hand1 := afterPick.2
  let room2 : Room :=
    if hand1.isEmpty then room1
    else
      match hand1.get? randIdx with
      | some discarded =>
        { room1 with
            discardPile := room1.discardPile ++ [discarded]
            hands := setHand room1.hands botUserId (hand1.eraseIdx randIdx) }
      | none => room1
  { room2 with
      currentTurnIndex := (room2.currentTurnIndex + 1) % room2.players.length
      turnExpiresAt := some (now + 30 * 1000) }

def botPlay (room : Room) (randIdx : Nat) (now : Int) : Outcome :=
  match room.players.get? room.currentTurnIndex with
  | none => ⟨some "TypeError", room, false⟩
  | some currentPlayer =>
    if !currentPlayer.isBot then ⟨none, room, false⟩
    else ⟨none, botPlayCore room currentPlayer.userId randIdx now, true⟩

/-! ## Turn-timer coordinator (socket handlers) -/

inductive TimerAction where
  | skip
  | schedule (delay : Int)
  | runNow
deriving DecidableEq, Repr

/-- The scheduling decision of `startTurnTimer(room, io, redis)` in the
socket handlers, taken after `clearTurnTimer`: with no persisted deadline
it returns; otherwise it computes `delay = turnExpiresAt - Date.now()`,
returns without re-arming when `delay <= 0`, and otherwise schedules the
expiry callback after `delay` milliseconds.  `runNow` is the action the
spec demands for an already-expired deadline; the code never takes it. -/
def startTurnTimerAction (turnExpiresAt : Option Int) (now : Int) : TimerAction :=
  match turnExpiresAt with
  | none => .skip
  | some t =>
    let delay := t - now
    if delay ≤ 0 then .skip else .schedule delay

/-! ## Specification-side definitions

These state, in declarative form, the properties the claims attribute to
the code; the theorems below compare them with the embedded source
functions. -/

/-- The rank values of the non-wild cards of suit `s` in the group. -/
def suitRankValues (group : List Card) (jokerRank : Option String) (s : String) :
    List Int :=
  (suitRanks group jokerRank s).map rankValue

/-- Declarative sequence condition (the amended claim): some suit
occurring in the group has a non-empty set of non-wild cards whose rank
values are pairwise distinct and whose span `max - min + 1` fits within
the group size — every other card of the group acts as a wild filler.
The span condition is phrased over all pairs, which for a non-empty list
is equivalent to `max - min + 1 ≤ length`. -/
def seqSpec (group : List Card) (jokerRank : Option String) : Prop :=
  ∃ s ∈ group.filterMap Card.suitKey,
    suitRankValues group jokerRank s ≠ [] ∧
    (suitRankValues group jokerRank s).Nodup ∧
    ∀ a ∈ suitRankValues group jokerRank s, ∀ b ∈ suitRankValues group jokerRank s,
      a - b + 1 ≤ (group.length : Int)

instance (group : List Card) (jokerRank : Option String) :
    Decidable (seqSpec group jokerRank) := by
  unfold seqSpec; infer_instance

/-- Declarative set condition: all non-wild ranks of the group agree
(vacuously true for an all-wild group). -/
def setSpec (group : List Card) (jokerRank : Option String) : Prop :=
  ∀ a ∈ nonWildRanks group jokerRank, ∀ b ∈ nonWildRanks group jokerRank, a = b

instance (group : List Card) (jokerRank : Option String) :
    Decidable (setSpec group jokerRank) := by
  unfold setSpec; infer_instance

/-- Number of groups counted as pure sequences (sequence, no wild card). -/
def pureSeqCount (groups : List Group) (jokerRank : Option String) : Nat :=
  groups.countP fun g => isSequence g.cards jokerRank && !(groupHasWild g.cards jokerRank)

/-- Number of groups counted as sequences, pure or impure. -/
def totalSeqCount (groups : List Group) (jokerRank : Option String) : Nat :=
  groups.countP fun g => isSequence g.cards jokerRank

/-- Number of groups counted as sets (not a sequence, but a set). -/
def setGroupCount (groups : List Group) (jokerRank : Option String) : Nat :=
  groups.countP fun g => !(isSequence g.cards jokerRank) && isSet g.cards jokerRank

/-- The multiset of cards held in the hands of a list of players (the
`Σ hands` of the conservation invariant; `hands` is keyed by userId, so
with the room invariant of pairwise-distinct userIds each hand is
counted once). -/
def handsSum (players : List Player) (hands : String → Option (List Card)) : Multiset Card :=
  (players.map fun p => (((hands p.userId).getD []) : Multiset Card)).sum

def handsCards (room : Room) : Multiset Card :=
  handsSum room.players room.hands

/-- The multiset union `deck ∪ discardPile ∪ all hands`. -/
def roomCards (room : Room) : Multiset Card :=
  (room.deck : Multiset Card) + (room.discardPile : Multiset Card) + handsCards room

/-- Pairwise-distinct userIds: established at join time (`join_room`
rejects a userId already in the room) and never disturbed afterwards. -/
def nodupUserIds (room : Room) : Prop :=
  (room.players.map Player.userId).Nodup

/-- Whether a submitted group uses the `{ cards: [...] }` object shape. -/
def Group.isWithCards : Group → Bool
  | .withCards _ => true
  | .bare _ => false

/-! ## Helper lemmas -/

lemma foldl_add_cardPoint (l : List Card) (n : Nat) :
    l.foldl (fun acc c => acc + cardPoint c) n = n + (l.map cardPoint).sum := by
  induction l generalizing n with
  | nil => simp
  | cons c cs ih => simp [List.foldl_cons, ih, Nat.add_assoc]

/-! ## C4: expired persisted deadline is silently dropped on re-arm -/

/-- C4 (code_bug evidence): for a room whose persisted `turnExpiresAt`
(time 0) is already 30 s in the past when `startTurnTimer` re-arms it,
the code returns without doing anything (`TimerAction.skip`); it never
takes the immediate-run action the specification demands for an expired
deadline. -/
theorem timer_expired_deadline_skipped :
    startTurnTimerAction (some 0) 30000 = TimerAction.skip ∧
    ∀ t now, startTurnTimerAction t now ≠ TimerAction.runNow := by
  refine ⟨rfl, ?_⟩
  intro t now
  match t with
  | none => simp [startTurnTimerAction]
  | some x =>
    simp only [startTurnTimerAction]
    split <;> simp

lemma flatMap_withCards (groups : List Group)
    (hshape : ∀ g ∈ groups, g.isWithCards = true) :
    (groups.flatMap fun g =>
      match g with
      | Group.withCards l => l
      | Group.bare _ => []) = groups.flatMap Group.cards := by
  induction groups with
  | nil => rfl
  | cons g gs ih =>
    have hg := hshape g (by simp)
    have hgs : ∀ g ∈ gs, g.isWithCards = true := fun x hx => hshape x (by simp [hx])
    cases g with
    | withCards l => simp [ih hgs, Group.cards]
    | bare l => simp [Group.isWithCards] at hg

/-! ## C10: deadwood membership and scoring agreement -/

/-- C10: a hand card is deadwood exactly when its token occurs in no
submitted group (so every copy of a token that occurs in some group is
excluded), and — whenever every group uses the `{ cards: [...] }`
shape — `deadwoodPoints` charges exactly the sum of `cardPoint` over the
cards `calculateDeadwood` returns. -/
theorem deadwood_membership_and_points (cards : List Card) (groups : List Group)
    (hshape : ∀ g ∈ groups, g.isWithCards = true) :
    calculateDeadwood cards groups =
      cards.filter (fun c => decide (∀ g ∈ groups, c ∉ g.cards)) ∧
    deadwoodPoints cards groups = ((calculateDeadwood cards groups).map cardPoint).sum := by
  have hmem : ∀ c : Card,
      (c ∉ groups.flatMap Group.cards) ↔ ∀ g ∈ groups, c ∉ g.cards := by
    intro c
    simp only [List.mem_flatMap, not_exists, not_and]
  constructor
  · simp only [calculateDeadwood]
    apply List.filter_congr
    intro c _
    simp only [decide_eq_decide]
    exact hmem c
  · simp only [deadwoodPoints, calculateDeadwood]
    rw [flatMap_withCards groups hshape, foldl_add_cardPoint]
    exact Nat.zero_add _

/-- C10 witness: a hand holding two copies of `A-H` and a `2-H`, with a
single group containing `A-H` once — both copies are excluded from the
deadwood, which is `[2-H]`, worth 2 points. -/
theorem deadwood_membership_and_points_witness :
    calculateDeadwood [Card.mk "A" "H", Card.mk "A" "H", Card.mk "2" "H"]
        [Group.withCards [Card.mk "A" "H"]] =
      [Card.mk "A" "H", Card.mk "A" "H", Card.mk "2" "H"].filter
        (fun c => decide (∀ g ∈ [Group.withCards [Card.mk "A" "H"]], c ∉ g.cards)) ∧
    deadwoodPoints [Card.mk "A" "H", Card.mk "A" "H", Card.mk "2" "H"]
        [Group.withCards [Card.mk "A" "H"]] =
      ((calculateDeadwood [Card.mk "A" "H", Card.mk "A" "H", Card.mk "2" "H"]
        [Group.withCards [Card.mk "A" "H"]]).map cardPoint).sum :=
  deadwood_membership_and_points _ _ (by decide)

/-! ## C8: ELO symmetry and multiplayer actual scores -/

/-- C8: with equal starting ratings and the same games-played K bucket,
the 2-player winner's gain equals the loser's loss; and in a 3-player
game the winner's average actual score is 1 while each loser's (one
winning opponent, one fellow loser) is 1/4.  `tenPow` abstracts
`Math.pow(10, ·)`; at exponent 0 it is exactly 1. -/
theorem elo_symmetry_and_actual_averages (tenPow : ℚ → ℚ) (h10 : tenPow 0 = 1)
    (r : Int) (gW gL : Nat) (hK : getKFactor gW = getKFactor gL) :
    calculateNewRating tenPow r gW true [⟨r, false⟩] - r =
      r - calculateNewRating tenPow r gL false [⟨r, true⟩] ∧
    actualScoreAvg true [⟨r, false⟩, ⟨r, false⟩] = 1 ∧
    actualScoreAvg false [⟨r, true⟩, ⟨r, false⟩] = 1/4 := by
  have hexp : expectedScore tenPow r r = 1/2 := by
    unfold expectedScore
    rw [sub_self, zero_div, h10]
    norm_num
  have havgW : actualScoreAvg true [⟨r, false⟩] = 1 := by
    simp [actualScoreAvg, actualScore]
  have havgL : actualScoreAvg false [⟨r, true⟩] = 0 := by
    simp [actualScoreAvg, actualScore]
  have hEW : expectedScoreAvg tenPow r [(⟨r, false⟩ : EloOpponent)] = 1/2 := by
    simp [expectedScoreAvg, hexp]
  have hEL : expectedScoreAvg tenPow r [(⟨r, true⟩ : EloOpponent)] = 1/2 := by
    simp [expectedScoreAvg, hexp]
  have hround : ∀ (n : ℤ), round ((r : ℚ) + (n : ℚ)) = r + n := by
    intro n
    rw [show (r : ℚ) + (n : ℚ) = ((r + n : ℤ) : ℚ) by push_cast; ring, round_intCast]
  have unfoldW : ∀ g : Nat, calculateNewRating tenPow r g true [⟨r, false⟩] =
      round ((r : ℚ) + (getKFactor g : ℚ) *
        (actualScoreAvg true [⟨r, false⟩] - expectedScoreAvg tenPow r [⟨r, false⟩])) :=
    fun _ => rfl
  have unfoldL : ∀ g : Nat, calculateNewRating tenPow r g false [⟨r, true⟩] =
      round ((r : ℚ) + (getKFactor g : ℚ) *
        (actualScoreAvg false [⟨r, true⟩] - expectedScoreAvg tenPow r [⟨r, true⟩])) :=
    fun _ => rfl
  refine ⟨?_, ?_, ?_⟩
  · have comp : ∀ g : Nat, ∀ n : ℤ, (getKFactor g : ℚ) = 2 * (n : ℚ) →
        calculateNewRating tenPow r g true [⟨r, false⟩] = r + n ∧
        calculateNewRating tenPow r g false [⟨r, true⟩] = r - n := by
      intro g n hg
      constructor
      · rw [unfoldW g, havgW, hEW,
          show ((getKFactor g : ℚ)) * (1 - 1/2) = ((n : ℤ) : ℚ) by rw [hg]; ring]
        exact hround n
      · rw [unfoldL g, havgL, hEL,
          show ((getKFactor g : ℚ)) * (0 - 1/2) = ((-n : ℤ) : ℚ) by rw [hg]; push_cast; ring]
        rw [hround (-n)]
        ring
    have hKval : getKFactor gW = 40 ∨ getKFactor gW = 32 := by
      unfold getKFactor; split <;> simp
    rcases hKval with h | h
    · obtain ⟨hw, -⟩ := comp gW 20 (by rw [h]; norm_num)
      obtain ⟨-, hl⟩ := comp gL 20 (by rw [← hK, h]; norm_num)
      rw [hw, hl]; ring
    · obtain ⟨hw, -⟩ := comp gW 16 (by rw [h]; norm_num)
      obtain ⟨-, hl⟩ := comp gL 16 (by rw [← hK, h]; norm_num)
      rw [hw, hl]; ring
  · simp [actualScoreAvg, actualScore]
  · simp [actualScoreAvg, actualScore]
    norm_num

/-- C8 witness: two players rated 1000, both in the `< 30` games K
bucket; and the 3-player actual-score averages at rating 1000. -/
theorem elo_symmetry_and_actual_averages_witness :
    calculateNewRating (fun _ => 1) 1000 0 true [⟨1000, false⟩] - 1000 =
      1000 - calculateNewRating (fun _ => 1) 1000 5 false [⟨1000, true⟩] ∧
    actualScoreAvg true [⟨1000, false⟩, ⟨1000, false⟩] = 1 ∧
    actualScoreAvg false [⟨1000, true⟩, ⟨1000, false⟩] = 1/4 :=
  elo_symmetry_and_actual_averages (fun _ => 1) rfl 1000 0 5 rfl

/-! ## Shape lemmas for the session-engine transitions

Each lemma enumerates the possible outcomes of one transition: every
failing run returns the untouched input room unsaved (together with the
condition that triggered it), and every successful run returns the
precise mutated room. -/

lemma discardCard_shape (room : Room) (userId : String) (card : Card) (now : Int) :
    (∃ r, discardCard room userId card now = ⟨some r, room, false⟩ ∧
      (room.gameState ≠ "playing" ∨
       room.players.get? room.currentTurnIndex = none ∨
       (∃ cp, room.players.get? room.currentTurnIndex = some cp ∧ cp.userId ≠ userId) ∨
       room.hands userId = none ∨
       (∃ hand, room.hands userId = some hand ∧ card ∉ hand))) ∨
    (∃ cp hand, room.gameState = "playing" ∧
      room.players.get? room.currentTurnIndex = some cp ∧ cp.userId = userId ∧
      room.hands userId = some hand ∧ card ∈ hand ∧
      discardCard room userId card now =
        ⟨none,
         { room with
            hands := setHand room.hands userId (removeFirst hand card)
            discardPile := room.discardPile ++ [card]
            currentTurnIndex := (room.currentTurnIndex + 1) % room.players.length
            turnExpiresAt := some (now + 30 * 1000) },
         true⟩) := by
  unfold discardCard
  by_cases h1 : room.gameState ≠ "playing"
  · exact Or.inl ⟨_, by rw [if_pos h1], Or.inl h1⟩
  · rw [if_neg h1]
    push_neg at h1
    match hcp : room.players.get? room.currentTurnIndex with
    | none => exact Or.inl ⟨_, rfl, Or.inr (Or.inl rfl)⟩
    | some cp =>
      dsimp only
      by_cases h2 : cp.userId ≠ userId
      · exact Or.inl ⟨_, by rw [if_pos h2], Or.inr (Or.inr (Or.inl ⟨cp, rfl, h2⟩))⟩
      · rw [if_neg h2]
        push_neg at h2
        match hh : room.hands userId with
        | none => exact Or.inl ⟨_, rfl, Or.inr (Or.inr (Or.inr (Or.inl rfl)))⟩
        | some hand =>
          dsimp only
          by_cases h3 : card ∉ hand
          · exact Or.inl ⟨_, by rw [if_pos h3],
              Or.inr (Or.inr (Or.inr (Or.inr ⟨hand, rfl, h3⟩)))⟩
          · rw [if_neg h3]
            push_neg at h3
            exact Or.inr ⟨cp, hand, h1, rfl, h2, rfl, h3, rfl⟩

lemma declare_shape (room : Room) (userId : String) (cards : List Card)
    (groupedCards : Option (List Group)) :
    (∃ r, declare room userId cards groupedCards = ⟨some r, room, false⟩) ∨
    (∃ cp hand, room.gameState = "playing" ∧
      room.players.get? room.currentTurnIndex = some cp ∧ cp.userId = userId ∧
      room.hands userId = some hand ∧ hand.length = cards.length ∧
      (validateDeclare room.gameType cards (groupedCards.getD [Group.withCards cards])
          room.jokerCard).valid = true ∧
      declare room userId cards groupedCards =
        ⟨none,
         { room with
            gameState := "ended"
            winnerIndex := some room.currentTurnIndex },
         true⟩) := by
  unfold declare
  by_cases h1 : room.gameState ≠ "playing"
  · exact Or.inl ⟨_, by rw [if_pos h1]⟩
  · rw [if_neg h1]
    push_neg at h1
    match hcp : room.players.get? room.currentTurnIndex with
    | none => exact Or.inl ⟨_, rfl⟩
    | some cp =>
      dsimp only
      by_cases h2 : cp.userId ≠ userId
      · exact Or.inl ⟨_, by rw [if_pos h2]⟩
      · rw [if_neg h2]
        push_neg at h2
        match hh : room.hands userId with
        | none => exact Or.inl ⟨_, rfl⟩
        | some hand =>
          dsimp only
          by_cases h3 : hand.length ≠ cards.length
          · exact Or.inl ⟨_, by rw [if_pos h3]⟩
          · rw [if_neg h3]
            push_neg at h3
            match hv : validateDeclare room.gameType cards
                (groupedCards.getD [Group.withCards cards]) room.jokerCard with
            | .err r => exact Or.inl ⟨_, rfl⟩
            | .ok p s k => exact Or.inr ⟨cp, hand, h1, rfl, h2, rfl, h3, rfl, rfl⟩

lemma botPlay_shape (room : Room) (randIdx : Nat) (now : Int) :
    (room.players.get? room.currentTurnIndex = none ∧
       botPlay room randIdx now = ⟨some "TypeError", room, false⟩) ∨
    (∃ cp, room.players.get? room.currentTurnIndex = some cp ∧ cp.isBot = false ∧
       botPlay room randIdx now = ⟨none, room, false⟩) ∨
    (∃ cp, room.players.get? room.currentTurnIndex = some cp ∧ cp.isBot = true ∧
       botPlay room randIdx now =
         ⟨none, botPlayCore room cp.userId randIdx now, true⟩) := by
  unfold botPlay
  match hcp : room.players.get? room.currentTurnIndex with
  | none => exact Or.inl ⟨rfl, rfl⟩
  | some cp =>
    dsimp only
    match hb : cp.isBot with
    | false => exact Or.inr (Or.inl ⟨cp, rfl, hb, rfl⟩)
    | true => exact Or.inr (Or.inr ⟨cp, rfl, hb, rfl⟩)

lemma startGame_shape (shuffle : List Card → List Card) (room : Room) :
    (∃ r, startGame shuffle room = ⟨some r, room, false⟩) ∨
    (∃ top, room.gameState = "waiting" ∧ 2 ≤ room.players.length ∧
      (shuffle (createDeck 2 true)).getLast? = some top ∧
      startGame shuffle room =
        ⟨none,
         { room with
            deck := (dealHands room.players (cardsPerPlayerOf room.gameType)
              (shuffle (createDeck 2 true)).dropLast (fun _ => none)).2
            discardPile := [top]
            jokerCard :=
              match top with
              | Card.mk r _ => some r
              | Card.jok _ => none
            gameState := "playing"
            currentTurnIndex := 0
            hands := (dealHands room.players (cardsPerPlayerOf room.gameType)
              (shuffle (createDeck 2 true)).dropLast (fun _ => none)).1 },
         true⟩) := by
  unfold startGame
  by_cases h1 : room.gameState ≠ "waiting"
  · exact Or.inl ⟨_, by rw [if_pos h1]⟩
  · rw [if_neg h1]
    push_neg at h1
    by_cases h2 : room.players.length < 2
    · exact Or.inl ⟨_, by rw [if_pos h2]⟩
    · rw [if_neg h2]
      push_neg at h2
      dsimp only
      match hd : getDecksForPlayers room.players.length
          (cardsPerPlayerOf room.gameType) 2 true with
      | .error e => exact Or.inl ⟨_, rfl⟩
      | .ok deck0 =>
        dsimp only
        have hdeck0 : deck0 = createDeck 2 true := by
          dsimp only [getDecksForPlayers] at hd
          split at hd
          · exact absurd hd (by simp)
          · exact (Except.ok.inj hd).symm
        subst hdeck0
        match htop : (shuffle (createDeck 2 true)).getLast? with
        | none => exact Or.inl ⟨_, rfl⟩
        | some top => exact Or.inr ⟨top, h1, h2, rfl, rfl⟩

lemma pickCard_shape (shuffle : List Card → List Card)
    (hsh : ∀ l, (shuffle l).Perm l) (room : Room) (userId source : String) :
    (∃ r, pickCard shuffle room userId source = ⟨some r, room, false⟩ ∧
      ((room.gameState ≠ "playing" ∧ r = "Game not in progress") ∨
       (room.players.get? room.currentTurnIndex = none ∧ r = "TypeError") ∨
       ((∃ cp, room.players.get? room.currentTurnIndex = some cp ∧ cp.userId ≠ userId) ∧
         r = "Not your turn") ∨
       (room.hands userId = none ∧ r = "Hand not found") ∨
       (source = "deck" ∧ room.deck = [] ∧ room.discardPile.length ≤ 1 ∧
         r = "No cards available") ∨
       (source = "discard" ∧ room.discardPile = [] ∧ r = "Discard pile is empty") ∨
       (source ≠ "deck" ∧ source ≠ "discard" ∧ r = "Invalid source"))) ∨
    (∃ cp hand, room.gameState = "playing" ∧
      room.players.get? room.currentTurnIndex = some cp ∧ cp.userId = userId ∧
      room.hands userId = some hand ∧
      ((∃ room1 card,
          ((room.deck ≠ [] ∧ room1 = room) ∨
           (room.deck = [] ∧ 1 < room.discardPile.length ∧
            ∃ top, room.discardPile.getLast? = some top ∧
              room1 = { room with
                deck := shuffle room.discardPile.dropLast
                discardPile := [top] })) ∧
          source = "deck" ∧ room1.deck.getLast? = some card ∧
          pickCard shuffle room userId source =
            ⟨none,
             { room1 with
                deck := room1.deck.dropLast
                hands := setHand room1.hands userId (hand ++ [card]) },
             true⟩) ∨
       (∃ card, source = "discard" ∧ room.discardPile.getLast? = some card ∧
          pickCard shuffle room userId source =
            ⟨none,
             { room with
                discardPile := room.discardPile.dropLast
                hands := setHand room.hands userId (hand ++ [card]) },
             true⟩))) := by
  unfold pickCard
  by_cases h1 : room.gameState ≠ "playing"
  · exact Or.inl ⟨_, by rw [if_pos h1], Or.inl ⟨h1, rfl⟩⟩
  · rw [if_neg h1]
    push_neg at h1
    match hcp : room.players.get? room.currentTurnIndex with
    | none => exact Or.inl ⟨_, rfl, Or.inr (Or.inl ⟨rfl, rfl⟩)⟩
    | some cp =>
      dsimp only
      by_cases h2 : cp.userId ≠ userId
      · exact Or.inl ⟨_, by rw [if_pos h2], Or.inr (Or.inr (Or.inl ⟨⟨cp, rfl, h2⟩, rfl⟩))⟩
      · rw [if_neg h2]
        push_neg at h2
        match hh : room.hands userId with
        | none => exact Or.inl ⟨_, rfl, Or.inr (Or.inr (Or.inr (Or.inl ⟨rfl, rfl⟩)))⟩
        | some hand =>
          dsimp only
          by_cases hsrc : source = "deck"
          · rw [if_pos hsrc]
            by_cases hde : room.deck.isEmpty = true
            · rw [if_pos hde]
              have hdecknil : room.deck = [] := List.isEmpty_iff.mp hde
              by_cases hp : 1 < room.discardPile.length
              · rw [if_pos hp]
                have hpnil : room.discardPile ≠ [] := by
                  intro hnil
                  rw [hnil] at hp
                  simp at hp
                obtain ⟨top, htop⟩ : ∃ top, room.discardPile.getLast? = some top := by
                  cases hlast : room.discardPile.getLast? with
                  | none => exact absurd (List.getLast?_eq_none_iff.mp hlast) hpnil
                  | some t => exact ⟨t, rfl⟩
                rw [htop]
                dsimp only
                have hsnil : shuffle room.discardPile.dropLast ≠ [] := by
                  intro hnil
                  have hlen := (hsh room.discardPile.dropLast).length_eq
                  rw [hnil, List.length_nil, List.length_dropLast] at hlen
                  omega
                obtain ⟨card, hcard⟩ :
                    ∃ c, (shuffle room.discardPile.dropLast).getLast? = some c := by
                  cases hlast : (shuffle room.discardPile.dropLast).getLast? with
                  | none => exact absurd (List.getLast?_eq_none_iff.mp hlast) hsnil
                  | some t => exact ⟨t, rfl⟩
                rw [hcard]
                exact Or.inr ⟨cp, hand, h1, rfl, h2, rfl,
                  Or.inl ⟨_, card, Or.inr ⟨hdecknil, hp, top, rfl, rfl⟩, hsrc, hcard, rfl⟩⟩
              · rw [if_neg hp]
                exact Or.inl ⟨_, rfl, Or.inr (Or.inr (Or.inr (Or.inr (Or.inl
                  ⟨hsrc, hdecknil, by omega, rfl⟩))))⟩
            · rw [if_neg hde]
              dsimp only
              have hdeckne : room.deck ≠ [] := by
                intro hnil
                exact hde (List.isEmpty_iff.mpr hnil)
              obtain ⟨card, hcard⟩ : ∃ c, room.deck.getLast? = some c := by
                cases hlast : room.deck.getLast? with
                | none => exact absurd (List.getLast?_eq_none_iff.mp hlast) hdeckne
                | some t => exact ⟨t, rfl⟩
              rw [hcard]
              exact Or.inr ⟨cp, hand, h1, rfl, h2, rfl,
                Or.inl ⟨room, card, Or.inl ⟨hdeckne, rfl⟩, hsrc, hcard, rfl⟩⟩
          · rw [if_neg hsrc]
            by_cases hsrc2 : source = "discard"
            · rw [if_pos hsrc2]
              match hlast : room.discardPile.getLast? with
              | none =>
                exact Or.inl ⟨_, rfl, Or.inr (Or.inr (Or.inr (Or.inr (Or.inr (Or.inl
                  ⟨hsrc2, List.getLast?_eq_none_iff.mp hlast, rfl⟩)))))⟩
              | some card =>
                exact Or.inr ⟨cp, hand, h1, rfl, h2, rfl, Or.inr ⟨card, hsrc2, rfl, rfl⟩⟩
            · rw [if_neg hsrc2]
              exact Or.inl ⟨_, rfl, Or.inr (Or.inr (Or.inr (Or.inr (Or.inr (Or.inr
                ⟨hsrc, hsrc2, rfl⟩)))))⟩

/-! ## Card-conservation lemmas -/

lemma coe_dropLast_add_getLast {l : List Card} {c : Card} (h : l.getLast? = some c) :
    (l.dropLast : Multiset Card) + {c} = (l : Multiset Card) := by
  have := List.dropLast_append_getLast? c h
  calc (l.dropLast : Multiset Card) + {c}
      = ((l.dropLast ++ [c] : List Card) : Multiset Card) := by
        rw [← Multiset.coe_singleton, ← Multiset.coe_add]
    _ = (l : Multiset Card) := by rw [this]

lemma removeFirst_cons (c : Card) (cs : List Card) (x : Card) :
    removeFirst (c :: cs) x = if c = x then cs else c :: removeFirst cs x := rfl

lemma coe_removeFirst_add {hand : List Card} {card : Card} (h : card ∈ hand) :
    (removeFirst hand card : Multiset Card) + {card} = (hand : Multiset Card) := by
  induction hand with
  | nil => cases h
  | cons c cs ih =>
    by_cases hc : c = card
    · subst hc
      rw [removeFirst_cons, if_pos rfl, add_comm, Multiset.singleton_add,
        Multiset.cons_coe]
    · have hmem : card ∈ cs := by
        rcases List.mem_cons.mp h with h' | h'
        · exact absurd h'.symm hc
        · exact h'
      rw [removeFirst_cons, if_neg hc]
      calc ((c :: removeFirst cs card : List Card) : Multiset Card) + {card}
          = (c ::ₘ (removeFirst cs card : Multiset Card)) + {card} := by
            rw [← Multiset.cons_coe]
        _ = c ::ₘ ((removeFirst cs card : Multiset Card) + {card}) := by
            rw [Multiset.cons_add]
        _ = c ::ₘ (cs : Multiset Card) := by rw [ih hmem]
        _ = ((c :: cs : List Card) : Multiset Card) := by rw [Multiset.cons_coe]

lemma coe_eraseIdx_add {hand : List Card} {i : Nat} {d : Card} (h : hand.get? i = some d) :
    (hand.eraseIdx i : Multiset Card) + {d} = (hand : Multiset Card) := by
  induction hand generalizing i with
  | nil => simp at h
  | cons c cs ih =>
    cases i with
    | zero =>
      simp only [List.get?] at h
      injection h with h
      subst h
      show (cs : Multiset Card) + {c} = ((c :: cs : List Card) : Multiset Card)
      rw [add_comm, Multiset.singleton_add, Multiset.cons_coe]
    | succ n =>
      simp only [List.get?] at h
      show ((c :: cs.eraseIdx n : List Card) : Multiset Card) + {d} =
        ((c :: cs : List Card) : Multiset Card)
      calc ((c :: cs.eraseIdx n : List Card) : Multiset Card) + {d}
          = (c ::ₘ (cs.eraseIdx n : Multiset Card)) + {d} := by
            rw [← Multiset.cons_coe]
        _ = c ::ₘ ((cs.eraseIdx n : Multiset Card) + {d}) := by
            rw [Multiset.cons_add]
        _ = c ::ₘ (cs : Multiset Card) := by rw [ih h]
        _ = ((c :: cs : List Card) : Multiset Card) := by rw [Multiset.cons_coe]

lemma handsSum_congr {players : List Player} {h1 h2 : String → Option (List Card)}
    (h : ∀ p ∈ players, h1 p.userId = h2 p.userId) :
    handsSum players h1 = handsSum players h2 := by
  unfold handsSum
  congr 1
  exact List.map_congr_left fun p hp => by rw [h p hp]

lemma handsSum_setHand (players : List Player) (hands : String → Option (List Card))
    (uid : String) (nh : List Card)
    (hnodup : (players.map Player.userId).Nodup)
    (hmem : ∃ p ∈ players, p.userId = uid) :
    handsSum players (setHand hands uid nh) + ((hands uid).getD [] : Multiset Card) =
      handsSum players hands + (nh : Multiset Card) := by
  have hcons : ∀ (ph : List Player) (q : Player) (h' : String → Option (List Card)),
      handsSum (q :: ph) h' = ((h' q.userId).getD [] : Multiset Card) + handsSum ph h' := by
    intro ph q h'
    simp [handsSum]
  induction players with
  | nil => simp at hmem
  | cons q ps ih =>
    rw [List.map_cons, List.nodup_cons] at hnodup
    obtain ⟨hq_notin, hps_nodup⟩ := hnodup
    by_cases hq : q.userId = uid
    · have hps : ∀ p ∈ ps, setHand hands uid nh p.userId = hands p.userId := by
        intro p hp
        have hne : p.userId ≠ uid := by
          intro he
          apply hq_notin
          have hqp : q.userId = p.userId := hq.trans he.symm
          rw [hqp]
          exact List.mem_map_of_mem Player.userId hp
        simp [setHand, hne]
      have hqv : setHand hands uid nh q.userId = some nh := by simp [setHand, hq]
      rw [hcons, hcons, hqv, handsSum_congr hps, hq]
      simp only [Option.getD_some]
      abel
    · have hmem' : ∃ p ∈ ps, p.userId = uid := by
        rcases hmem with ⟨p, hp, hpu⟩
        rcases List.mem_cons.mp hp with h' | h'
        · exact absurd (h' ▸ hpu) hq
        · exact ⟨p, h', hpu⟩
      have hqv : setHand hands uid nh q.userId = hands q.userId := by simp [setHand, hq]
      rw [hcons, hcons, hqv, add_assoc, ih hps_nodup hmem', ← add_assoc]

lemma coe_append_singleton (l : List Card) (c : Card) :
    ((l ++ [c] : List Card) : Multiset Card) = (l : Multiset Card) + {c} := by
  rw [← Multiset.coe_singleton, ← Multiset.coe_add]

/-- Drawing the top deck card into a player's hand preserves the card
multiset. -/
lemma roomCards_drawDeck (room1 : Room) (userId : String) (hand : List Card) (card : Card)
    (hnodup : (room1.players.map Player.userId).Nodup)
    (hmem : ∃ p ∈ room1.players, p.userId = userId)
    (hgetd : ((room1.hands userId).getD [] : List Card) = hand)
    (hcard : room1.deck.getLast? = some card) :
    roomCards
      { room1 with
         deck := room1.deck.dropLast
         hands := setHand room1.hands userId (hand ++ [card]) } = roomCards room1 := by
  have hset := handsSum_setHand room1.players room1.hands userId (hand ++ [card]) hnodup hmem
  rw [hgetd] at hset
  apply add_right_cancel (b := (hand : Multiset Card))
  simp only [roomCards, handsCards]
  calc (room1.deck.dropLast : Multiset Card) + ↑room1.discardPile +
        handsSum room1.players (setHand room1.hands userId (hand ++ [card])) + ↑hand
      = ↑room1.deck.dropLast + ↑room1.discardPile +
        (handsSum room1.players (setHand room1.hands userId (hand ++ [card])) + ↑hand) := by
        rw [add_assoc]
    _ = ↑room1.deck.dropLast + ↑room1.discardPile +
        (handsSum room1.players room1.hands + (↑hand + ({card} : Multiset Card))) := by
        rw [hset, coe_append_singleton]
    _ = (↑room1.deck.dropLast + ({card} : Multiset Card)) +
        (↑room1.discardPile + (handsSum room1.players room1.hands + ↑hand)) := by abel
    _ = (room1.deck : Multiset Card) +
        (↑room1.discardPile + (handsSum room1.players room1.hands + ↑hand)) := by
        rw [coe_dropLast_add_getLast hcard]
    _ = ↑room1.deck + ↑room1.discardPile + handsSum room1.players room1.hands + ↑hand := by
        abel

/-- Drawing the top discard into a player's hand preserves the card
multiset. -/
lemma roomCards_drawDiscard (room : Room) (userId : String) (hand : List Card) (card : Card)
    (hnodup : (room.players.map Player.userId).Nodup)
    (hmem : ∃ p ∈ room.players, p.userId = userId)
    (hh : room.hands userId = some hand)
    (hcard : room.discardPile.getLast? = some card) :
    roomCards
      { room with
         discardPile := room.discardPile.dropLast
         hands := setHand room.hands userId (hand ++ [card]) } = roomCards room := by
  have hset := handsSum_setHand room.players room.hands userId (hand ++ [card]) hnodup hmem
  rw [hh] at hset
  simp only [Option.getD_some] at hset
  apply add_right_cancel (b := (hand : Multiset Card))
  simp only [roomCards, handsCards]
  calc (room.deck : Multiset Card) + ↑room.discardPile.dropLast +
        handsSum room.players (setHand room.hands userId (hand ++ [card])) + ↑hand
      = ↑room.deck + ↑room.discardPile.dropLast +
        (handsSum room.players (setHand room.hands userId (hand ++ [card])) + ↑hand) := by
        rw [add_assoc]
    _ = ↑room.deck + ↑room.discardPile.dropLast +
        (handsSum room.players room.hands + (↑hand + ({card} : Multiset Card))) := by
        rw [hset, coe_append_singleton]
    _ = (↑room.discardPile.dropLast + ({card} : Multiset Card)) +
        (↑room.deck + (handsSum room.players room.hands + ↑hand)) := by abel
    _ = (room.discardPile : Multiset Card) +
        (↑room.deck + (handsSum room.players room.hands + ↑hand)) := by
        rw [coe_dropLast_add_getLast hcard]
    _ = ↑room.deck + ↑room.discardPile + handsSum room.players room.hands + ↑hand := by
        abel

/-- The recycle step of `pickCard` — reshuffle all of the discard pile
but its top card into a fresh deck, reseed the top card as the sole
discard — preserves the card multiset. -/
lemma roomCards_recycle (shuffle : List Card → List Card)
    (hsh : ∀ l, (shuffle l).Perm l) (room : Room) (top : Card)
    (hdeck : room.deck = []) (htop : room.discardPile.getLast? = some top) :
    roomCards
      { room with
         deck := shuffle room.discardPile.dropLast
         discardPile := [top] } = roomCards room := by
  simp only [roomCards, handsCards]
  rw [hdeck]
  rw [show ((shuffle room.discardPile.dropLast : List Card) : Multiset Card) =
      (room.discardPile.dropLast : Multiset Card) from
    Multiset.coe_eq_coe.mpr (hsh room.discardPile.dropLast)]
  rw [show (([top] : List Card) : Multiset Card) = {top} from rfl]
  calc (room.discardPile.dropLast : Multiset Card) + {top} +
        handsSum room.players room.hands
      = (room.discardPile : Multiset Card) + handsSum room.players room.hands := by
        rw [coe_dropLast_add_getLast htop]
    _ = (([] : List Card) : Multiset Card) + ↑room.discardPile +
        handsSum room.players room.hands := by
        rw [show (([] : List Card) : Multiset Card) = 0 from rfl, zero_add]

/-- C3 helper: `pickCard` preserves the card multiset in every case. -/
lemma roomCards_pickCard (shuffle : List Card → List Card)
    (hsh : ∀ l, (shuffle l).Perm l) (room : Room) (userId source : String)
    (hnodup : nodupUserIds room) :
    roomCards (pickCard shuffle room userId source).room = roomCards room := by
  rcases pickCard_shape shuffle hsh room userId source with
    ⟨r, heq, -⟩ |
    ⟨cp, hand, -, hcp, h2, hh,
      ⟨room1, card, hroom1, -, hcard, heq⟩ | ⟨card, -, hcard, heq⟩⟩
  · rw [heq]
  · have hmem : ∃ p ∈ room.players, p.userId = userId :=
      ⟨cp, List.get?_mem hcp, h2⟩
    rcases hroom1 with ⟨-, hr1⟩ | ⟨hdeck, -, top, htop, hr1⟩
    · rw [hr1] at heq hcard
      rw [heq]
      exact roomCards_drawDeck room userId hand card hnodup hmem (by rw [hh]; rfl) hcard
    · subst hr1
      rw [heq]
      have hstep := roomCards_drawDeck
        { room with deck := shuffle room.discardPile.dropLast, discardPile := [top] }
        userId hand card hnodup hmem (by rw [hh]; rfl) hcard
      rw [hstep]
      exact roomCards_recycle shuffle hsh room top hdeck htop
  · have hmem : ∃ p ∈ room.players, p.userId = userId :=
      ⟨cp, List.get?_mem hcp, h2⟩
    rw [heq]
    exact roomCards_drawDiscard room userId hand card hnodup hmem hh hcard

/-- Case analysis of the bot-branch body: the optional draw (deck
non-empty), the optional random discard (hand non-empty, sampled index in
range), then the turn advance. -/
lemma botPlayCore_cases (room : Room) (uid : String) (randIdx : Nat) (now : Int) :
    ∃ (room1 : Room) (hand1 : List Card),
      ((room.deck.getLast? = none ∧ room1 = room ∧ hand1 = (room.hands uid).getD []) ∨
       (∃ c, room.deck.getLast? = some c ∧ hand1 = (room.hands uid).getD [] ++ [c] ∧
          room1 = { room with
                     deck := room.deck.dropLast
                     hands := setHand room.hands uid hand1 })) ∧
      ∃ room2 : Room,
        ((hand1.isEmpty = true ∧ room2 = room1) ∨
         (hand1.isEmpty = false ∧
           ((∃ d, hand1.get? randIdx = some d ∧
              room2 = { room1 with
                         discardPile := room1.discardPile ++ [d]
                         hands := setHand room1.hands uid (hand1.eraseIdx randIdx) }) ∨
            (hand1.get? randIdx = none ∧ room2 = room1)))) ∧
        botPlayCore room uid randIdx now =
          { room2 with
             currentTurnIndex := (room2.currentTurnIndex + 1) % room2.players.length
             turnExpiresAt := some (now + 30 * 1000) } := by
  unfold botPlayCore
  cases hd : room.deck.getLast? with
  | none =>
    dsimp only
    refine ⟨room, (room.hands uid).getD [], Or.inl ⟨rfl, rfl, rfl⟩, ?_⟩
    cases hE : ((room.hands uid).getD [] : List Card).isEmpty with
    | true =>
      rw [if_pos (show (true : Bool) = true from rfl)]
      exact ⟨room, Or.inl ⟨rfl, rfl⟩, rfl⟩
    | false =>
      rw [if_neg (show ¬((false : Bool) = true) from Bool.false_ne_true)]
      cases hg : ((room.hands uid).getD [] : List Card).get? randIdx with
      | none => exact ⟨room, Or.inr ⟨rfl, Or.inr ⟨rfl, rfl⟩⟩, rfl⟩
      | some d =>
        dsimp only
        exact ⟨_, Or.inr ⟨rfl, Or.inl ⟨d, rfl, rfl⟩⟩, rfl⟩
  | some c =>
    dsimp only
    refine ⟨_, (room.hands uid).getD [] ++ [c], Or.inr ⟨c, rfl, rfl, rfl⟩, ?_⟩
    have hE : ((room.hands uid).getD [] ++ [c] : List Card).isEmpty = false := by
      cases h' : ((room.hands uid).getD [] ++ [c] : List Card) with
      | nil => exact absurd (List.append_eq_nil.mp h').2 (by simp)
      | cons a l => rfl
    rw [if_neg (by rw [hE]; exact Bool.false_ne_true)]
    cases hg : ((room.hands uid).getD [] ++ [c] : List Card).get? randIdx with
    | none => exact ⟨_, Or.inr ⟨hE, Or.inr ⟨rfl, rfl⟩⟩, rfl⟩
    | some d =>
      dsimp only
      exact ⟨_, Or.inr ⟨hE, Or.inl ⟨d, rfl, rfl⟩⟩, rfl⟩

/-- Splicing the sampled card out of the hand onto the discard pile
preserves the card multiset. -/
lemma roomCards_botDiscard (room1 : Room) (uid : String) (hand1 : List Card)
    (randIdx : Nat) (d : Card)
    (hnodup : (room1.players.map Player.userId).Nodup)
    (hmem : ∃ p ∈ room1.players, p.userId = uid)
    (hgetd : ((room1.hands uid).getD [] : List Card) = hand1)
    (hg : hand1.get? randIdx = some d) :
    roomCards
      { room1 with
         discardPile := room1.discardPile ++ [d]
         hands := setHand room1.hands uid (hand1.eraseIdx randIdx) } = roomCards room1 := by
  have hset := handsSum_setHand room1.players room1.hands uid (hand1.eraseIdx randIdx)
    hnodup hmem
  rw [hgetd] at hset
  apply add_right_cancel (b := (hand1 : Multiset Card))
  simp only [roomCards, handsCards]
  calc (room1.deck : Multiset Card) + ↑(room1.discardPile ++ [d]) +
        handsSum room1.players (setHand room1.hands uid (hand1.eraseIdx randIdx)) + ↑hand1
      = ↑room1.deck + (↑room1.discardPile + ({d} : Multiset Card)) +
        (handsSum room1.players (setHand room1.hands uid (hand1.eraseIdx randIdx)) +
          ↑hand1) := by
        rw [coe_append_singleton, add_assoc]
    _ = ↑room1.deck + (↑room1.discardPile + ({d} : Multiset Card)) +
        (handsSum room1.players room1.hands + ↑(hand1.eraseIdx randIdx)) := by rw [hset]
    _ = ↑room1.deck + ↑room1.discardPile + handsSum room1.players room1.hands +
        ((hand1.eraseIdx randIdx : Multiset Card) + {d}) := by abel
    _ = ↑room1.deck + ↑room1.discardPile + handsSum room1.players room1.hands + ↑hand1 := by
        rw [coe_eraseIdx_add hg]

/-- C3 helper: the bot-branch body preserves the card multiset. -/
lemma roomCards_botPlayCore (room : Room) (uid : String) (randIdx : Nat) (now : Int)
    (hnodup : nodupUserIds room) (hmem : ∃ p ∈ room.players, p.userId = uid) :
    roomCards (botPlayCore room uid randIdx now) = roomCards room := by
  obtain ⟨room1, hand1, hstage1, room2, hstage2, heq⟩ :=
    botPlayCore_cases room uid randIdx now
  have hplayers1 : room1.players = room.players := by
    rcases hstage1 with ⟨-, hr, -⟩ | ⟨c, -, -, hr⟩ <;> rw [hr]
  have hcards1 : roomCards room1 = roomCards room := by
    rcases hstage1 with ⟨-, hr, -⟩ | ⟨c, hc, hh1, hr⟩
    · rw [hr]
    · rw [hr, hh1]
      exact roomCards_drawDeck room uid ((room.hands uid).getD []) c hnodup hmem rfl hc
  have hhands1 : ((room1.hands uid).getD [] : List Card) = hand1 := by
    rcases hstage1 with ⟨-, hr, hh1⟩ | ⟨c, -, hh1, hr⟩
    · rw [hr, hh1]
    · rw [hr]
      dsimp only
      rw [hh1]
      simp [setHand]
  have hcards2 : roomCards room2 = roomCards room1 := by
    rcases hstage2 with ⟨-, hr⟩ | ⟨-, ⟨d, hg, hr⟩ | ⟨-, hr⟩⟩
    · rw [hr]
    · rw [hr]
      refine roomCards_botDiscard room1 uid hand1 randIdx d ?_ ?_ hhands1 hg
      · rw [hplayers1]
        exact hnodup
      · rw [hplayers1]
        exact hmem
    · rw [hr]
  rw [heq]
  have : roomCards
      { room2 with
         currentTurnIndex := (room2.currentTurnIndex + 1) % room2.players.length
         turnExpiresAt := some (now + 30 * 1000) } = roomCards room2 := rfl
  rw [this, hcards2, hcards1]

/-- C3 helper: `discardCard` preserves the card multiset in every case. -/
lemma roomCards_discardCard (room : Room) (userId : String) (card : Card) (now : Int)
    (hnodup : nodupUserIds room) :
    roomCards (discardCard room userId card now).room = roomCards room := by
  rcases discardCard_shape room userId card now with
    ⟨r, heq, -⟩ | ⟨cp, hand, -, hcp, h2, hh, hmemc, heq⟩
  · rw [heq]
  · rw [heq]
    have hmem : ∃ p ∈ room.players, p.userId = userId :=
      ⟨cp, List.get?_mem hcp, h2⟩
    have hset := handsSum_setHand room.players room.hands userId (removeFirst hand card)
      hnodup hmem
    rw [hh] at hset
    simp only [Option.getD_some] at hset
    apply add_right_cancel (b := (hand : Multiset Card))
    simp only [roomCards, handsCards]
    calc (room.deck : Multiset Card) + ↑(room.discardPile ++ [card]) +
          handsSum room.players (setHand room.hands userId (removeFirst hand card)) +
          ↑hand
        = ↑room.deck + (↑room.discardPile + ({card} : Multiset Card)) +
          (handsSum room.players (setHand room.hands userId (removeFirst hand card)) +
            ↑hand) := by
          rw [coe_append_singleton, add_assoc]
      _ = ↑room.deck + (↑room.discardPile + ({card} : Multiset Card)) +
          (handsSum room.players room.hands + ↑(removeFirst hand card)) := by rw [hset]
      _ = ↑room.deck + ↑room.discardPile + handsSum room.players room.hands +
          ((removeFirst hand card : Multiset Card) + {card}) := by abel
      _ = ↑room.deck + ↑room.discardPile + handsSum room.players room.hands + ↑hand := by
          rw [coe_removeFirst_add hmemc]

/-- C3 helper: `declare` preserves the card multiset in every case. -/
lemma roomCards_declare (room : Room) (userId : String) (cards : List Card)
    (groupedCards : Option (List Group)) :
    roomCards (declare room userId cards groupedCards).room = roomCards room := by
  rcases declare_shape room userId cards groupedCards with
    ⟨r, heq⟩ | ⟨cp, hand, -, -, -, -, -, -, heq⟩
  · rw [heq]
  · rw [heq]
    rfl

/-- C3 helper: `botPlay` preserves the card multiset in every case. -/
lemma roomCards_botPlay (room : Room) (randIdx : Nat) (now : Int)
    (hnodup : nodupUserIds room) :
    roomCards (botPlay room randIdx now).room = roomCards room := by
  rcases botPlay_shape room randIdx now with
    ⟨-, heq⟩ | ⟨cp, -, -, heq⟩ | ⟨cp, hcp, -, heq⟩ <;> rw [heq]
  exact roomCards_botPlayCore room cp.userId randIdx now hnodup
    ⟨cp, List.get?_mem hcp, rfl⟩

lemma drawN_conserve (n : Nat) (deck : List Card) :
    ((drawN n deck).1 : Multiset Card) + ((drawN n deck).2 : Multiset Card) =
      (deck : Multiset Card) := by
  induction n generalizing deck with
  | zero =>
    show (([] : List Card) : Multiset Card) + ↑deck = ↑deck
    rw [show (([] : List Card) : Multiset Card) = 0 from rfl, zero_add]
  | succ n ih =>
    rw [show drawN (n + 1) deck =
        (match deck.getLast? with
         | none => ([], deck)
         | some c => (c :: (drawN n deck.dropLast).1, (drawN n deck.dropLast).2)) from rfl]
    cases hd : deck.getLast? with
    | none =>
      show (([] : List Card) : Multiset Card) + ↑deck = ↑deck
      rw [show (([] : List Card) : Multiset Card) = 0 from rfl, zero_add]
    | some c =>
      show ((c :: (drawN n deck.dropLast).1 : List Card) : Multiset Card) +
        ↑(drawN n deck.dropLast).2 = ↑deck
      calc ((c :: (drawN n deck.dropLast).1 : List Card) : Multiset Card) +
            ↑(drawN n deck.dropLast).2
          = {c} + (((drawN n deck.dropLast).1 : Multiset Card) +
              ↑(drawN n deck.dropLast).2) := by
            rw [← Multiset.cons_coe, ← Multiset.singleton_add, add_assoc]
        _ = {c} + (deck.dropLast : Multiset Card) := by rw [ih]
        _ = (deck : Multiset Card) := by
            rw [add_comm, coe_dropLast_add_getLast hd]

lemma dealHands_other (ps : List Player) (n : Nat) (deck : List Card)
    (hands0 : String → Option (List Card)) (u : String)
    (hu : u ∉ ps.map Player.userId) :
    (dealHands ps n deck hands0).1 u = hands0 u := by
  induction ps generalizing deck hands0 with
  | nil => rfl
  | cons p ps ih =>
    rw [List.map_cons] at hu
    have hne : u ≠ p.userId := fun he => hu (he ▸ List.mem_cons_self _ _)
    have hu' : u ∉ ps.map Player.userId := fun hmem => hu (List.mem_cons_of_mem _ hmem)
    show (dealHands ps n (drawN n deck).2
      (setHand hands0 p.userId (drawN n deck).1)).1 u = hands0 u
    rw [ih _ _ hu']
    simp [setHand, hne]

lemma dealHands_conserve (ps : List Player) (n : Nat) (deck : List Card)
    (hands0 : String → Option (List Card))
    (hnodup : (ps.map Player.userId).Nodup)
    (hz : ∀ p ∈ ps, hands0 p.userId = none) :
    handsSum ps (dealHands ps n deck hands0).1 +
      ((dealHands ps n deck hands0).2 : Multiset Card) = (deck : Multiset Card) := by
  induction ps generalizing deck hands0 with
  | nil =>
    show (0 : Multiset Card) + ↑deck = ↑deck
    rw [zero_add]
  | cons p ps ih =>
    rw [List.map_cons, List.nodup_cons] at hnodup
    obtain ⟨hp_notin, hps_nodup⟩ := hnodup
    have hz' : ∀ q ∈ ps, setHand hands0 p.userId (drawN n deck).1 q.userId = none := by
      intro q hq
      have hne : q.userId ≠ p.userId := by
        intro he
        exact hp_notin (he ▸ List.mem_map_of_mem Player.userId hq)
      rw [show setHand hands0 p.userId (drawN n deck).1 q.userId = hands0 q.userId by
            simp [setHand, hne]]
      exact hz q (List.mem_cons_of_mem _ hq)
    have hdeal : (dealHands (p :: ps) n deck hands0) =
        dealHands ps n (drawN n deck).2 (setHand hands0 p.userId (drawN n deck).1) := rfl
    rw [hdeal]
    have hcons : handsSum (p :: ps)
        (dealHands ps n (drawN n deck).2 (setHand hands0 p.userId (drawN n deck).1)).1 =
        (((dealHands ps n (drawN n deck).2
            (setHand hands0 p.userId (drawN n deck).1)).1 p.userId).getD [] : Multiset Card) +
        handsSum ps (dealHands ps n (drawN n deck).2
          (setHand hands0 p.userId (drawN n deck).1)).1 := by
      simp [handsSum]
    rw [hcons]
    rw [show (dealHands ps n (drawN n deck).2
        (setHand hands0 p.userId (drawN n deck).1)).1 p.userId =
        some (drawN n deck).1 from by
      rw [dealHands_other ps n _ _ p.userId hp_notin]
      simp [setHand]]
    simp only [Option.getD_some]
    rw [add_assoc, ih _ _ hps_nodup hz']
    exact drawN_conserve n deck

/-- C3 helper: a successful `startGame` distributes exactly the full
shuffled double deck over draw pile, first discard and hands. -/
lemma roomCards_startGame (shuffle : List Card → List Card)
    (hsh : ∀ l, (shuffle l).Perm l) (room : Room) (hnodup : nodupUserIds room)
    (hok : (startGame shuffle room).error = none) :
    roomCards (startGame shuffle room).room = (createDeck 2 true : Multiset Card) := by
  rcases startGame_shape shuffle room with ⟨r, heq⟩ | ⟨top, -, -, htop, heq⟩
  · rw [heq] at hok
    simp at hok
  · rw [heq]
    simp only [roomCards, handsCards]
    have hdeal := dealHands_conserve room.players (cardsPerPlayerOf room.gameType)
      (shuffle (createDeck 2 true)).dropLast (fun _ => none) hnodup (fun _ _ => rfl)
    calc ((dealHands room.players (cardsPerPlayerOf room.gameType)
            (shuffle (createDeck 2 true)).dropLast (fun _ => none)).2 : Multiset Card) +
          (([top] : List Card) : Multiset Card) +
          handsSum room.players (dealHands room.players (cardsPerPlayerOf room.gameType)
            (shuffle (createDeck 2 true)).dropLast (fun _ => none)).1
        = (handsSum room.players (dealHands room.players (cardsPerPlayerOf room.gameType)
            (shuffle (createDeck 2 true)).dropLast (fun _ => none)).1 +
           ((dealHands room.players (cardsPerPlayerOf room.gameType)
            (shuffle (createDeck 2 true)).dropLast (fun _ => none)).2 : Multiset Card)) +
          ({top} : Multiset Card) := by
          rw [show (([top] : List Card) : Multiset Card) = {top} from rfl]
          abel
      _ = ((shuffle (createDeck 2 true)).dropLast : Multiset Card) + {top} := by rw [hdeal]
      _ = ((shuffle (createDeck 2 true) : List Card) : Multiset Card) := by
          rw [coe_dropLast_add_getLast htop]
      _ = (createDeck 2 true : Multiset Card) :=
          Multiset.coe_eq_coe.mpr (hsh (createDeck 2 true))

lemma card_listSum (l : List (Multiset Card)) :
    l.sum.card = (l.map Multiset.card).sum := by
  induction l with
  | nil => rfl
  | cons m ms ih => simp [ih]

/-- The projections of the bot-branch body that do not depend on the
draw/discard stages: the turn advances by one modulo the player count
with a fresh 30-second deadline, while game state, winner and player
list are untouched. -/
lemma botPlayCore_proj (room : Room) (uid : String) (randIdx : Nat) (now : Int) :
    (botPlayCore room uid randIdx now).currentTurnIndex =
      (room.currentTurnIndex + 1) % room.players.length ∧
    (botPlayCore room uid randIdx now).turnExpiresAt = some (now + 30 * 1000) ∧
    (botPlayCore room uid randIdx now).gameState = room.gameState ∧
    (botPlayCore room uid randIdx now).winnerIndex = room.winnerIndex ∧
    (botPlayCore room uid randIdx now).players = room.players := by
  obtain ⟨room1, hand1, hstage1, room2, hstage2, heq⟩ :=
    botPlayCore_cases room uid randIdx now
  have h1 : room1.players = room.players ∧ room1.currentTurnIndex = room.currentTurnIndex ∧
      room1.gameState = room.gameState ∧ room1.winnerIndex = room.winnerIndex := by
    rcases hstage1 with ⟨-, hr, -⟩ | ⟨c, -, -, hr⟩ <;> rw [hr] <;> exact ⟨rfl, rfl, rfl, rfl⟩
  have h2 : room2.players = room1.players ∧ room2.currentTurnIndex = room1.currentTurnIndex ∧
      room2.gameState = room1.gameState ∧ room2.winnerIndex = room1.winnerIndex := by
    rcases hstage2 with ⟨-, hr⟩ | ⟨-, ⟨d, -, hr⟩ | ⟨-, hr⟩⟩ <;> rw [hr] <;>
      exact ⟨rfl, rfl, rfl, rfl⟩
  rw [heq]
  refine ⟨?_, rfl, ?_, ?_, ?_⟩
  · show (room2.currentTurnIndex + 1) % room2.players.length =
      (room.currentTurnIndex + 1) % room.players.length
    rw [h2.2.1, h1.2.1, h2.1, h1.1]
  · show room2.gameState = room.gameState
    rw [h2.2.2.1, h1.2.2.1]
  · show room2.winnerIndex = room.winnerIndex
    rw [h2.2.2.2, h1.2.2.2]
  · show room2.players = room.players
    rw [h2.1, h1.1]

/-! ## C7: failing transitions never mutate or persist the room -/

/-- C7: whenever `startGame`, `pickCard`, `discardCard` or `declare`
fails validation (returns `{ok:false, reason}`), the room record is
returned exactly as it was handed in, and `redis.saveRoom` is never
invoked — no partial mutation is committed. -/
theorem failed_transition_unchanged (shuffle : List Card → List Card)
    (hsh : ∀ l, (shuffle l).Perm l) (room : Room) (userId source : String)
    (card : Card) (now : Int) (cards : List Card)
    (groupedCards : Option (List Group)) (reason : String) :
    ((startGame shuffle room).error = some reason →
      startGame shuffle room = ⟨some reason, room, false⟩) ∧
    ((pickCard shuffle room userId source).error = some reason →
      pickCard shuffle room userId source = ⟨some reason, room, false⟩) ∧
    ((discardCard room userId card now).error = some reason →
      discardCard room userId card now = ⟨some reason, room, false⟩) ∧
    ((declare room userId cards groupedCards).error = some reason →
      declare room userId cards groupedCards = ⟨some reason, room, false⟩) := by
  refine ⟨?_, ?_, ?_, ?_⟩
  · intro h
    rcases startGame_shape shuffle room with ⟨r, heq⟩ | ⟨top, -, -, -, heq⟩
    · rw [heq] at h
      have hr : r = reason := Option.some.inj h
      rw [heq, hr]
    · rw [heq] at h
      exact Option.noConfusion h
  · intro h
    rcases pickCard_shape shuffle hsh room userId source with
      ⟨r, heq, -⟩ |
      ⟨cp, hand, -, -, -, -, ⟨room1, card', -, -, -, heq⟩ | ⟨card', -, -, heq⟩⟩
    · rw [heq] at h
      have hr : r = reason := Option.some.inj h
      rw [heq, hr]
    · rw [heq] at h
      exact Option.noConfusion h
    · rw [heq] at h
      exact Option.noConfusion h
  · intro h
    rcases discardCard_shape room userId card now with
      ⟨r, heq, -⟩ | ⟨cp, hand, -, -, -, -, -, heq⟩
    · rw [heq] at h
      have hr : r = reason := Option.some.inj h
      rw [heq, hr]
    · rw [heq] at h
      exact Option.noConfusion h
  · intro h
    rcases declare_shape room userId cards groupedCards with
      ⟨r, heq⟩ | ⟨cp, hand, -, -, -, -, -, -, heq⟩
    · rw [heq] at h
      have hr : r = reason := Option.some.inj h
      rw [heq, hr]
    · rw [heq] at h
      exact Option.noConfusion h

/-- A small reachable-looking playing room used by the witnesses. -/
def sampleRoom : Room where
  gameType := 13
  players := [⟨"alice", false⟩, ⟨"bob", true⟩]
  gameState := "playing"
  deck := [Card.mk "2" "H", Card.mk "3" "H"]
  discardPile := [Card.mk "4" "H"]
  jokerCard := some "9"
  currentTurnIndex := 0
  turnExpiresAt := none
  hands := fun u =>
    if u = "alice" then some [Card.mk "A" "H"]
    else if u = "bob" then some [Card.mk "K" "S"] else none
  winnerIndex := none

/-- C7 witness: on the playing sample room, `start_game` fails with
"Game already started", and the theorem instantiates to say that this
(and any other) failure leaves the room unchanged and unsaved. -/
theorem failed_transition_unchanged_witness :
    (startGame id sampleRoom).error = some "Game already started" ∧
    ((startGame id sampleRoom).error = some "Game already started" →
      startGame id sampleRoom = ⟨some "Game already started", sampleRoom, false⟩) ∧
    ((pickCard id sampleRoom "bob" "deck").error = some "Not your turn" →
      pickCard id sampleRoom "bob" "deck" = ⟨some "Not your turn", sampleRoom, false⟩) ∧
    ((discardCard sampleRoom "alice" (Card.mk "Q" "C") 0).error = some "Card not in hand" →
      discardCard sampleRoom "alice" (Card.mk "Q" "C") 0 =
        ⟨some "Card not in hand", sampleRoom, false⟩) ∧
    ((declare sampleRoom "alice" [] none).error = some "Card count mismatch" →
      declare sampleRoom "alice" [] none = ⟨some "Card count mismatch", sampleRoom, false⟩) :=
  ⟨rfl,
   (failed_transition_unchanged id (fun l => List.Perm.refl l) sampleRoom "bob" "deck"
      (Card.mk "Q" "C") 0 [] none "Game already started").1,
   (failed_transition_unchanged id (fun l => List.Perm.refl l) sampleRoom "bob" "deck"
      (Card.mk "Q" "C") 0 [] none "Not your turn").2.1,
   (failed_transition_unchanged id (fun l => List.Perm.refl l) sampleRoom "alice" "deck"
      (Card.mk "Q" "C") 0 [] none "Card not in hand").2.2.1,
   (failed_transition_unchanged id (fun l => List.Perm.refl l) sampleRoom "alice" "deck"
      (Card.mk "Q" "C") 0 [] none "Card count mismatch").2.2.2⟩

/-! ## C3: card conservation across all transitions -/

/-- C3: the multiset `deck ∪ discardPile ∪ all hands` is invariant: a
successful `startGame` establishes it as exactly the full shuffled
double deck, and `pickCard` (including the recycling path),
`discardCard`, `declare` and `botPlay` all preserve it, whether they
succeed or fail — no card is duplicated or lost, and its cardinality is
`|deck| + |discardPile| + Σ|hands|`. -/
theorem card_conservation (shuffle : List Card → List Card)
    (hsh : ∀ l, (shuffle l).Perm l) (room : Room) (hnodup : nodupUserIds room)
    (userId source : String) (card : Card) (now : Int) (randIdx : Nat)
    (cards : List Card) (groupedCards : Option (List Group)) :
    ((startGame shuffle room).error = none →
      roomCards (startGame shuffle room).room = (createDeck 2 true : Multiset Card)) ∧
    roomCards (pickCard shuffle room userId source).room = roomCards room ∧
    roomCards (discardCard room userId card now).room = roomCards room ∧
    roomCards (declare room userId cards groupedCards).room = roomCards room ∧
    roomCards (botPlay room randIdx now).room = roomCards room ∧
    (roomCards room).card =
      room.deck.length + room.discardPile.length +
        (room.players.map fun p => ((room.hands p.userId).getD []).length).sum := by
  refine ⟨fun hok => roomCards_startGame shuffle hsh room hnodup hok,
    roomCards_pickCard shuffle hsh room userId source hnodup,
    roomCards_discardCard room userId card now hnodup,
    roomCards_declare room userId cards groupedCards,
    roomCards_botPlay room randIdx now hnodup, ?_⟩
  simp only [roomCards, handsCards, handsSum]
  rw [Multiset.card_add, Multiset.card_add, Multiset.coe_card, Multiset.coe_card,
    card_listSum, List.map_map]
  rfl

/-- C3 witness: the sample room, with the identity permutation as the
shuffle. -/
theorem card_conservation_witness :
    ((startGame id sampleRoom).error = none →
      roomCards (startGame id sampleRoom).room = (createDeck 2 true : Multiset Card)) ∧
    roomCards (pickCard id sampleRoom "alice" "deck").room = roomCards sampleRoom ∧
    roomCards (discardCard sampleRoom "alice" (Card.mk "A" "H") 0).room =
      roomCards sampleRoom ∧
    roomCards (declare sampleRoom "alice" [] none).room = roomCards sampleRoom ∧
    roomCards (botPlay sampleRoom 0 0).room = roomCards sampleRoom ∧
    (roomCards sampleRoom).card =
      sampleRoom.deck.length + sampleRoom.discardPile.length +
        (sampleRoom.players.map fun p => ((sampleRoom.hands p.userId).getD []).length).sum :=
  card_conservation id (fun l => List.Perm.refl l) sampleRoom
    (by unfold nodupUserIds; decide) "alice" "deck" (Card.mk "A" "H") 0 0 [] none

/-! ## C5: turn-index discipline -/

/-- C5: `pickCard` and `declare` never change `currentTurnIndex`; a
successful `discardCard` advances it by exactly one step modulo the
player count and sets a fresh 30-second deadline (a failed one changes
nothing); and `botPlay` advances exactly the same way when the
current-turn player is a bot and is a no-op otherwise. -/
theorem turn_index_transitions (shuffle : List Card → List Card)
    (hsh : ∀ l, (shuffle l).Perm l) (room : Room) (userId source : String)
    (card : Card) (now : Int) (randIdx : Nat) (cards : List Card)
    (groupedCards : Option (List Group)) :
    (pickCard shuffle room userId source).room.currentTurnIndex =
      room.currentTurnIndex ∧
    (declare room userId cards groupedCards).room.currentTurnIndex =
      room.currentTurnIndex ∧
    ((discardCard room userId card now).error = none →
      (discardCard room userId card now).room.currentTurnIndex =
        (room.currentTurnIndex + 1) % room.players.length ∧
      (discardCard room userId card now).room.turnExpiresAt = some (now + 30 * 1000)) ∧
    ((discardCard room userId card now).error ≠ none →
      (discardCard room userId card now).room = room) ∧
    (∀ cp, room.players.get? room.currentTurnIndex = some cp → cp.isBot = true →
      (botPlay room randIdx now).room.currentTurnIndex =
        (room.currentTurnIndex + 1) % room.players.length ∧
      (botPlay room randIdx now).room.turnExpiresAt = some (now + 30 * 1000)) ∧
    (∀ cp, room.players.get? room.currentTurnIndex = some cp → cp.isBot = false →
      (botPlay room randIdx now).room = room) := by
  refine ⟨?_, ?_, ?_, ?_, ?_, ?_⟩
  · rcases pickCard_shape shuffle hsh room userId source with
      ⟨r, heq, -⟩ |
      ⟨cp, hand, -, -, -, -, ⟨room1, card', hroom1, -, -, heq⟩ | ⟨card', -, -, heq⟩⟩
    · rw [heq]
    · rw [heq]
      show room1.currentTurnIndex = room.currentTurnIndex
      rcases hroom1 with ⟨-, hr⟩ | ⟨-, -, top, -, hr⟩ <;> rw [hr]
    · rw [heq]
  · rcases declare_shape room userId cards groupedCards with
      ⟨r, heq⟩ | ⟨cp, hand, -, -, -, -, -, -, heq⟩ <;> rw [heq]
  · intro hok
    rcases discardCard_shape room userId card now with
      ⟨r, heq, -⟩ | ⟨cp, hand, -, -, -, -, -, heq⟩
    · rw [heq] at hok
      exact Option.noConfusion hok
    · rw [heq]
      exact ⟨rfl, rfl⟩
  · intro herr
    rcases discardCard_shape room userId card now with
      ⟨r, heq, -⟩ | ⟨cp, hand, -, -, -, -, -, heq⟩
    · rw [heq]
    · rw [heq] at herr
      exact absurd rfl herr
  · intro cp hcp hbot
    rcases botPlay_shape room randIdx now with
      ⟨hnone, -⟩ | ⟨cp', hcp', hb', -⟩ | ⟨cp', hcp', hb', heq⟩
    · rw [hcp] at hnone
      exact Option.noConfusion hnone
    · rw [hcp] at hcp'
      have : cp = cp' := Option.some.inj hcp'
      rw [← this, hbot] at hb'
      exact Bool.noConfusion hb'
    · rw [heq]
      have hproj := botPlayCore_proj room cp'.userId randIdx now
      exact ⟨hproj.1, hproj.2.1⟩
  · intro cp hcp hbot
    rcases botPlay_shape room randIdx now with
      ⟨hnone, -⟩ | ⟨cp', hcp', hb', heq⟩ | ⟨cp', hcp', hb', -⟩
    · rw [hcp] at hnone
      exact Option.noConfusion hnone
    · rw [heq]
    · rw [hcp] at hcp'
      have : cp = cp' := Option.some.inj hcp'
      rw [← this, hbot] at hb'
      exact Bool.noConfusion hb'

/-- C5 witness: the sample room (human `alice` to move, bot `bob` next). -/
theorem turn_index_transitions_witness :
    (pickCard id sampleRoom "alice" "deck").room.currentTurnIndex =
      sampleRoom.currentTurnIndex ∧
    (declare sampleRoom "alice" [] none).room.currentTurnIndex =
      sampleRoom.currentTurnIndex ∧
    ((discardCard sampleRoom "alice" (Card.mk "A" "H") 0).error = none →
      (discardCard sampleRoom "alice" (Card.mk "A" "H") 0).room.currentTurnIndex =
        (sampleRoom.currentTurnIndex + 1) % sampleRoom.players.length ∧
      (discardCard sampleRoom "alice" (Card.mk "A" "H") 0).room.turnExpiresAt =
        some (0 + 30 * 1000)) ∧
    ((discardCard sampleRoom "alice" (Card.mk "A" "H") 0).error ≠ none →
      (discardCard sampleRoom "alice" (Card.mk "A" "H") 0).room = sampleRoom) ∧
    (∀ cp, sampleRoom.players.get? sampleRoom.currentTurnIndex = some cp →
      cp.isBot = true →
      (botPlay sampleRoom 0 0).room.currentTurnIndex =
        (sampleRoom.currentTurnIndex + 1) % sampleRoom.players.length ∧
      (botPlay sampleRoom 0 0).room.turnExpiresAt = some (0 + 30 * 1000)) ∧
    (∀ cp, sampleRoom.players.get? sampleRoom.currentTurnIndex = some cp →
      cp.isBot = false →
      (botPlay sampleRoom 0 0).room = sampleRoom) :=
  turn_index_transitions id (fun l => List.Perm.refl l) sampleRoom "alice" "deck"
    (Card.mk "A" "H") 0 0 [] none

/-! ## C6: drawing from an empty deck — the recycling path -/

/-- C6: for a playing room whose turn-holder picks from source `deck`:
when the deck is empty and the discard pile holds more than one card,
the pile minus its top card is reshuffled into a fresh deck, the top
card is reseeded as the sole discard, the drawn card lands in the
player's hand and the total card multiset is preserved; the pick fails —
with `No cards available`, leaving the room unchanged and unsaved —
exactly when the deck is empty and the discard pile holds at most one
card (a non-empty deck always supplies the card). -/
theorem pick_deck_recycling (shuffle : List Card → List Card)
    (hsh : ∀ l, (shuffle l).Perm l) (room : Room) (userId : String) (cp : Player)
    (hand : List Card) (hnodup : nodupUserIds room)
    (hplay : room.gameState = "playing")
    (hcp : room.players.get? room.currentTurnIndex = some cp)
    (hcpu : cp.userId = userId)
    (hhand : room.hands userId = some hand) :
    (room.deck = [] → 1 < room.discardPile.length →
      (pickCard shuffle room userId "deck").error = none ∧
      (∀ top, room.discardPile.getLast? = some top →
        (pickCard shuffle room userId "deck").room.discardPile = [top]) ∧
      (∃ c, (pickCard shuffle room userId "deck").room.hands userId =
        some (hand ++ [c])) ∧
      roomCards (pickCard shuffle room userId "deck").room = roomCards room) ∧
    (room.deck = [] → room.discardPile.length ≤ 1 →
      pickCard shuffle room userId "deck" = ⟨some "No cards available", room, false⟩) ∧
    (room.deck ≠ [] → (pickCard shuffle room userId "deck").error = none) := by
  have hshape := pickCard_shape shuffle hsh room userId "deck"
  refine ⟨?_, ?_, ?_⟩
  · intro hdeck hpile
    rcases hshape with ⟨r, heq, hcond⟩ | hsucc
    · exfalso
      rcases hcond with ⟨hc, -⟩ | ⟨hc, -⟩ | ⟨⟨cp', hcp', hne⟩, -⟩ | ⟨hc, -⟩ |
        ⟨-, -, hc, -⟩ | ⟨hc, -⟩ | ⟨hc, -⟩
      · exact hc hplay
      · rw [hcp] at hc
        exact Option.noConfusion hc
      · rw [hcp] at hcp'
        exact hne ((Option.some.inj hcp') ▸ hcpu)
      · rw [hhand] at hc
        exact Option.noConfusion hc
      · omega
      · exact absurd hc (by decide)
      · exact hc rfl
    · obtain ⟨cp', hand', -, -, -, hhand', hbranch⟩ := hsucc
      have hhand'' : hand' = hand := by
        rw [hhand] at hhand'
        exact (Option.some.inj hhand').symm
      subst hhand''
      rcases hbranch with ⟨room1, c, hroom1, -, -, heq⟩ | ⟨c, hds, -, -⟩
      · rcases hroom1 with ⟨hne, -⟩ | ⟨-, -, top, htop, hr1⟩
        · exact absurd hdeck hne
        · refine ⟨by rw [heq], ?_, ⟨c, ?_⟩, ?_⟩
          · intro top' htop'
            rw [htop] at htop'
            have : top = top' := Option.some.inj htop'
            rw [heq, hr1, ← this]
          · rw [heq, hr1]
            show setHand room.hands userId (hand' ++ [c]) userId = some (hand' ++ [c])
            simp [setHand]
          · exact roomCards_pickCard shuffle hsh room userId "deck" hnodup
      · exact absurd hds (by decide)
  · intro hdeck hpile
    rcases hshape with ⟨r, heq, hcond⟩ | hsucc
    · rcases hcond with ⟨hc, -⟩ | ⟨hc, -⟩ | ⟨⟨cp', hcp', hne⟩, -⟩ | ⟨hc, -⟩ |
        ⟨-, -, -, hr⟩ | ⟨hc, -⟩ | ⟨hc, -⟩
      · exact absurd hplay hc
      · rw [hcp] at hc
        exact Option.noConfusion hc
      · rw [hcp] at hcp'
        exact absurd ((Option.some.inj hcp') ▸ hcpu) hne
      · rw [hhand] at hc
        exact Option.noConfusion hc
      · rw [hr] at heq
        exact heq
      · exact absurd hc (by decide)
      · exact absurd rfl hc
    · exfalso
      obtain ⟨cp', hand', -, -, -, -, hbranch⟩ := hsucc
      rcases hbranch with ⟨room1, c, hroom1, -, -, -⟩ | ⟨c, hds, -, -⟩
      · rcases hroom1 with ⟨hne, -⟩ | ⟨-, hpile', -⟩
        · exact hne hdeck
        · omega
      · exact absurd hds (by decide)
  · intro hdeck
    rcases hshape with ⟨r, heq, hcond⟩ | hsucc
    · exfalso
      rcases hcond with ⟨hc, -⟩ | ⟨hc, -⟩ | ⟨⟨cp', hcp', hne⟩, -⟩ | ⟨hc, -⟩ |
        ⟨-, hc, -⟩ | ⟨hc, -⟩ | ⟨hc, -⟩
      · exact hc hplay
      · rw [hcp] at hc
        exact Option.noConfusion hc
      · rw [hcp] at hcp'
        exact hne ((Option.some.inj hcp') ▸ hcpu)
      · rw [hhand] at hc
        exact Option.noConfusion hc
      · exact hdeck hc
      · exact absurd hc (by decide)
      · exact hc rfl
    · obtain ⟨cp', hand', -, -, -, -, hbranch⟩ := hsucc
      rcases hbranch with ⟨room1, c, -, -, -, heq⟩ | ⟨c, hds, -, -⟩
      · rw [heq]
      · exact absurd hds (by decide)

/-- C6 witness: a playing room with an empty deck and a two-card discard
pile (the recycling case), instantiated for `alice`. -/
def recycleRoom : Room where
  gameType := 13
  players := [⟨"alice", false⟩, ⟨"bob", true⟩]
  gameState := "playing"
  deck := []
  discardPile := [Card.mk "4" "H", Card.mk "5" "S"]
  jokerCard := some "9"
  currentTurnIndex := 0
  turnExpiresAt := none
  hands := fun u =>
    if u = "alice" then some [Card.mk "A" "H"]
    else if u = "bob" then some [Card.mk "K" "S"] else none
  winnerIndex := none

theorem pick_deck_recycling_witness :
    (recycleRoom.deck = [] → 1 < recycleRoom.discardPile.length →
      (pickCard id recycleRoom "alice" "deck").error = none ∧
      (∀ top, recycleRoom.discardPile.getLast? = some top →
        (pickCard id recycleRoom "alice" "deck").room.discardPile = [top]) ∧
      (∃ c, (pickCard id recycleRoom "alice" "deck").room.hands "alice" =
        some ([Card.mk "A" "H"] ++ [c])) ∧
      roomCards (pickCard id recycleRoom "alice" "deck").room = roomCards recycleRoom) ∧
    (recycleRoom.deck = [] → recycleRoom.discardPile.length ≤ 1 →
      pickCard id recycleRoom "alice" "deck" =
        ⟨some "No cards available", recycleRoom, false⟩) ∧
    (recycleRoom.deck ≠ [] → (pickCard id recycleRoom "alice" "deck").error = none) :=
  pick_deck_recycling id (fun l => List.Perm.refl l) recycleRoom "alice"
    ⟨"alice", false⟩ [Card.mk "A" "H"] (by unfold nodupUserIds; decide) rfl rfl rfl rfl

/-! ## Classification and declare-threshold lemmas -/

lemma classifyGroup_eq (g : List Card) (jr : Option String) :
    (classifyGroup g jr = .pureSeq ↔
      (isSequence g jr = true ∧ groupHasWild g jr = false)) ∧
    (classifyGroup g jr = .impureSeq ↔
      (isSequence g jr = true ∧ groupHasWild g jr = true)) ∧
    (classifyGroup g jr = .set ↔
      (isSequence g jr = false ∧ isSet g jr = true)) ∧
    (classifyGroup g jr = .invalid ↔
      (isSequence g jr = false ∧ isSet g jr = false)) := by
  cases hseq : isSequence g jr <;> cases hset : isSet g jr <;>
    cases hw : groupHasWild g jr <;>
    simp [classifyGroup, hseq, hset, hw]

lemma isSequence_min_length {g : List Card} {jr : Option String}
    (h : isSequence g jr = true) : ¬(g.length < 3) := by
  intro hlen
  unfold isSequence at h
  rw [if_pos hlen] at h
  exact Bool.noConfusion h

lemma isSet_min_length {g : List Card} {jr : Option String}
    (h : isSet g jr = true) : ¬(g.length < 3) := by
  intro hlen
  unfold isSet at h
  rw [if_pos hlen] at h
  exact Bool.noConfusion h

lemma loopGroups_cons (jr : Option String) (g : Group) (gs : List Group) (p s k : Nat) :
    loopGroups jr (g :: gs) p s k =
      if g.cards.length < 3 then .err "Groups must have at least 3 cards"
      else
        match classifyGroup g.cards jr with
        | .pureSeq => loopGroups jr gs (p + 1) s k
        | .impureSeq => loopGroups jr gs p (s + 1) k
        | .set => loopGroups jr gs p s (k + 1)
        | .invalid => .err "Invalid group: not a sequence or set" := rfl

lemma loopGroups_eq_ok (jr : Option String) (gs : List Group) :
    ∀ p s k : Nat,
    (∀ g ∈ gs, isSequence g.cards jr = true ∨ isSet g.cards jr = true) →
    loopGroups jr gs p s k = .ok
      (p + gs.countP fun g => isSequence g.cards jr && !(groupHasWild g.cards jr))
      (s + gs.countP fun g => isSequence g.cards jr && groupHasWild g.cards jr)
      (k + gs.countP fun g => !(isSequence g.cards jr) && isSet g.cards jr) := by
  induction gs with
  | nil => intro p s k _; simp [loopGroups]
  | cons g gs' ih =>
    intro p s k hval
    have hg := hval g (List.mem_cons_self _ _)
    have hval' : ∀ g ∈ gs', isSequence g.cards jr = true ∨ isSet g.cards jr = true :=
      fun x hx => hval x (List.mem_cons_of_mem _ hx)
    have hlen : ¬(g.cards.length < 3) := by
      rcases hg with h | h
      · exact isSequence_min_length h
      · exact isSet_min_length h
    rw [loopGroups_cons, if_neg hlen]
    cases hcl : classifyGroup g.cards jr with
    | invalid =>
      obtain ⟨hs, hk⟩ := (classifyGroup_eq g.cards jr).2.2.2.mp hcl
      rcases hg with h | h
      · rw [h] at hs
        exact Bool.noConfusion hs
      · rw [h] at hk
        exact Bool.noConfusion hk
    | pureSeq =>
      obtain ⟨hs, hw⟩ := (classifyGroup_eq g.cards jr).1.mp hcl
      dsimp only
      rw [ih (p + 1) s k hval']
      congr 1
      · rw [List.countP_cons]
        simp [hs, hw]
        omega
      · rw [List.countP_cons]
        simp [hs, hw]
      · rw [List.countP_cons]
        simp [hs]
    | impureSeq =>
      obtain ⟨hs, hw⟩ := (classifyGroup_eq g.cards jr).2.1.mp hcl
      dsimp only
      rw [ih p (s + 1) k hval']
      congr 1
      · rw [List.countP_cons]
        simp [hs, hw]
      · rw [List.countP_cons]
        simp [hs, hw]
        omega
      · rw [List.countP_cons]
        simp [hs]
    | set =>
      obtain ⟨hs, hk⟩ := (classifyGroup_eq g.cards jr).2.2.1.mp hcl
      dsimp only
      rw [ih p s (k + 1) hval']
      congr 1
      · rw [List.countP_cons]
        simp [hs]
      · rw [List.countP_cons]
        simp [hs]
      · rw [List.countP_cons]
        simp [hs, hk]
        omega

lemma loopGroups_err (jr : Option String) (gs : List Group) :
    ∀ p s k : Nat,
    (∃ g ∈ gs, isSequence g.cards jr = false ∧ isSet g.cards jr = false) →
    ∃ r, loopGroups jr gs p s k = .err r := by
  induction gs with
  | nil => intro p s k h; simp at h
  | cons g gs' ih =>
    intro p s k hbad
    rw [loopGroups_cons]
    by_cases hlen : g.cards.length < 3
    · rw [if_pos hlen]
      exact ⟨_, rfl⟩
    · rw [if_neg hlen]
      cases hcl : classifyGroup g.cards jr with
      | invalid => exact ⟨_, rfl⟩
      | pureSeq =>
        obtain ⟨hs, -⟩ := (classifyGroup_eq g.cards jr).1.mp hcl
        dsimp only
        rcases hbad with ⟨gb, hgb, hb1, hb2⟩
        rcases List.mem_cons.mp hgb with h' | h'
        · rw [h'] at hb1
          rw [hb1] at hs
          exact Bool.noConfusion hs
        · exact ih _ _ _ ⟨gb, h', hb1, hb2⟩
      | impureSeq =>
        obtain ⟨hs, -⟩ := (classifyGroup_eq g.cards jr).2.1.mp hcl
        dsimp only
        rcases hbad with ⟨gb, hgb, hb1, hb2⟩
        rcases List.mem_cons.mp hgb with h' | h'
        · rw [h'] at hb1
          rw [hb1] at hs
          exact Bool.noConfusion hs
        · exact ih _ _ _ ⟨gb, h', hb1, hb2⟩
      | set =>
        obtain ⟨-, hk⟩ := (classifyGroup_eq g.cards jr).2.2.1.mp hcl
        dsimp only
        rcases hbad with ⟨gb, hgb, hb1, hb2⟩
        rcases List.mem_cons.mp hgb with h' | h'
        · rw [h'] at hb2
          rw [hb2] at hk
          exact Bool.noConfusion hk
        · exact ih _ _ _ ⟨gb, h', hb1, hb2⟩

lemma countP_pure_add_impure (gs : List Group) (jr : Option String) :
    (gs.countP fun g => isSequence g.cards jr && !(groupHasWild g.cards jr)) +
      (gs.countP fun g => isSequence g.cards jr && groupHasWild g.cards jr) =
      gs.countP fun g => isSequence g.cards jr := by
  induction gs with
  | nil => rfl
  | cons g gs' ih =>
    rw [List.countP_cons, List.countP_cons, List.countP_cons]
    cases hs : isSequence g.cards jr <;> cases hw : groupHasWild g.cards jr <;>
      simp [hs, hw] <;> omega

lemma declare_thresholds_aux (p0 t0 P S K : Nat) (e1 e2 : String) :
    (if P < p0 then DeclareResult.err e1
     else if P + S < t0 then DeclareResult.err e2
     else DeclareResult.ok P S K).valid = true ↔ (p0 ≤ P ∧ t0 ≤ P + S) := by
  by_cases hp : P < p0
  · rw [if_pos hp]
    simp [DeclareResult.valid]
    omega
  · rw [if_neg hp]
    by_cases hq : P + S < t0
    · rw [if_pos hq]
      simp [DeclareResult.valid]
      omega
    · rw [if_neg hq]
      simp [DeclareResult.valid]
      omega

/-! ## C2: declare acceptance thresholds -/

/-- C2: for the 13- and 21-card variants, `validateDeclare` accepts
exactly when the flat hand has the variant's `cardsPerPlayer` cards,
every submitted group classifies as a sequence or a set, and the counts
meet the variant thresholds — 13-card: ≥ 1 pure sequence and ≥ 2
sequences total; 21-card: ≥ 3 pure and ≥ 4 total.  (An empty grouping
never meets the thresholds, so the `Invalid grouping` rejection agrees
with the right-hand side.) -/
theorem declare_threshold_acceptance (gameType : Nat)
    (hgt : gameType = 13 ∨ gameType = 21)
    (cards : List Card) (groups : List Group) (jr : Option String) :
    (validateDeclare gameType cards groups jr).valid = true ↔
      (cards.length = cardsPerPlayerOf gameType ∧
       (∀ g ∈ groups, isSequence g.cards jr = true ∨ isSet g.cards jr = true) ∧
       (if gameType = 13 then 1 else 3) ≤ pureSeqCount groups jr ∧
       (if gameType = 13 then 2 else 4) ≤ totalSeqCount groups jr) := by
  have hcpp : (if gameType = 21 then 21 else 13) = cardsPerPlayerOf gameType := rfl
  unfold validateDeclare
  dsimp only
  by_cases hlen : cards.length ≠ (if gameType = 21 then 21 else 13)
  · rw [if_pos hlen]
    rw [hcpp] at hlen
    simp only [DeclareResult.valid, Bool.false_eq_true, false_iff]
    intro hrhs
    exact hlen hrhs.1
  · rw [if_neg hlen]
    push_neg at hlen
    rw [hcpp] at hlen
    by_cases hemp : groups.isEmpty = true
    · rw [if_pos hemp]
      have hnil : groups = [] := List.isEmpty_iff.mp hemp
      subst hnil
      simp only [DeclareResult.valid, Bool.false_eq_true, false_iff]
      rintro ⟨-, -, hth, -⟩
      unfold pureSeqCount at hth
      simp only [List.countP_nil] at hth
      rcases hgt with rfl | rfl
      · simp at hth
      · simp at hth
    · rw [if_neg hemp]
      by_cases hval : ∀ g ∈ groups, isSequence g.cards jr = true ∨ isSet g.cards jr = true
      · rw [loopGroups_eq_ok jr groups 0 0 0 hval]
        dsimp only
        simp only [Nat.zero_add]
        rcases hgt with rfl | rfl
        · rw [if_pos rfl, declare_thresholds_aux]
          constructor
          · rintro ⟨h1, h2⟩
            refine ⟨hlen, hval, ?_, ?_⟩
            · rw [if_pos rfl]
              exact h1
            · rw [if_pos rfl]
              unfold totalSeqCount
              rw [← countP_pure_add_impure]
              exact h2
          · rintro ⟨-, -, h1, h2⟩
            rw [if_pos rfl] at h1 h2
            unfold totalSeqCount at h2
            rw [← countP_pure_add_impure] at h2
            exact ⟨h1, h2⟩
        · rw [if_neg (by decide), if_pos rfl, declare_thresholds_aux]
          constructor
          · rintro ⟨h1, h2⟩
            refine ⟨hlen, hval, ?_, ?_⟩
            · rw [if_neg (by decide)]
              exact h1
            · rw [if_neg (by decide)]
              unfold totalSeqCount
              rw [← countP_pure_add_impure]
              exact h2
          · rintro ⟨-, -, h1, h2⟩
            rw [if_neg (by decide)] at h1 h2
            unfold totalSeqCount at h2
            rw [← countP_pure_add_impure] at h2
            exact ⟨h1, h2⟩
      · push_neg at hval
        obtain ⟨gb, hgb, hbad⟩ := hval
        have hb1 : isSequence gb.cards jr = false := by
          cases h : isSequence gb.cards jr
          · rfl
          · exact absurd h hbad.1
        have hb2 : isSet gb.cards jr = false := by
          cases h : isSet gb.cards jr
          · rfl
          · exact absurd h hbad.2
        obtain ⟨r, herr⟩ := loopGroups_err jr groups 0 0 0 ⟨gb, hgb, hb1, hb2⟩
        rw [herr]
        dsimp only
        simp only [DeclareResult.valid, Bool.false_eq_true, false_iff]
        rintro ⟨-, hv, -⟩
        rcases hv gb hgb with h | h
        · exact hbad.1 h
        · exact hbad.2 h

/-- A legal 13-card declare used by the C2 witness: two pure sequences,
two impure sequences (joker rank 9), 13 cards in total. -/
def w13cards : List Card :=
  [Card.mk "A" "H", Card.mk "2" "H", Card.mk "3" "H",
   Card.mk "5" "S", Card.mk "6" "S", Card.mk "9" "D",
   Card.mk "J" "C", Card.mk "Q" "C", Card.mk "K" "C",
   Card.mk "7" "D", Card.mk "8" "D", Card.mk "9" "H", Card.mk "10" "D"]

def w13groups : List Group :=
  [Group.withCards [Card.mk "A" "H", Card.mk "2" "H", Card.mk "3" "H"],
   Group.withCards [Card.mk "5" "S", Card.mk "6" "S", Card.mk "9" "D"],
   Group.withCards [Card.mk "J" "C", Card.mk "Q" "C", Card.mk "K" "C"],
   Group.withCards [Card.mk "7" "D", Card.mk "8" "D", Card.mk "9" "H", Card.mk "10" "D"]]

/-- C2 witness: the legal 13-card declare above is accepted, and the
acceptance criterion instantiates to it. -/
theorem declare_threshold_acceptance_witness :
    (validateDeclare 13 w13cards w13groups (some "9")).valid = true ∧
    ((validateDeclare 13 w13cards w13groups (some "9")).valid = true ↔
      (w13cards.length = cardsPerPlayerOf 13 ∧
       (∀ g ∈ w13groups, isSequence g.cards (some "9") = true ∨
         isSet g.cards (some "9") = true) ∧
       (if 13 = 13 then 1 else 3) ≤ pureSeqCount w13groups (some "9") ∧
       (if 13 = 13 then 2 else 4) ≤ totalSeqCount w13groups (some "9"))) :=
  ⟨by decide, declare_threshold_acceptance 13 (Or.inl rfl) w13cards w13groups (some "9")⟩

/-! ## C1: characterizing the sequence scan

`seqScanAux` runs over the sorted rank values with `consecutive = 1` and
the wild budget; the lemmas below show that the final
`consecutive + wildCount` reaches the group size exactly when the sorted
ranks are strictly increasing and their span fits the group size. -/

lemma seqScanAux_cons (prev r : Int) (rs : List Int) (c w : Nat) :
    seqScanAux prev (r :: rs) c w =
      if r - prev = 1 then seqScanAux r rs (c + 1) w
      else if 1 < r - prev ∧ r - prev - 1 ≤ (w : Int) then
        seqScanAux r rs (c + (r - prev).toNat) (w - (r - prev - 1).toNat)
      else seqScanAux r rs 1 w := rfl

/-- Each scan step grows `consecutive + wildCount` by at most one. -/
lemma scan_sum_le : ∀ (rest : List Int) (prev : Int) (c w : Nat), 1 ≤ c →
    (seqScanAux prev rest c w).1 + (seqScanAux prev rest c w).2 ≤ c + w + rest.length := by
  intro rest
  induction rest with
  | nil =>
    intro prev c w _
    simp [seqScanAux]
  | cons r rs ih =>
    intro prev c w hc
    rw [seqScanAux_cons]
    by_cases h1 : r - prev = 1
    · rw [if_pos h1]
      have := ih r (c + 1) w (by omega)
      simp only [List.length_cons]
      omega
    · rw [if_neg h1]
      by_cases h2 : 1 < r - prev ∧ r - prev - 1 ≤ (w : Int)
      · rw [if_pos h2]
        have := ih r (c + (r - prev).toNat) (w - (r - prev - 1).toNat) (by omega)
        simp only [List.length_cons]
        omega
      · rw [if_neg h2]
        have := ih r 1 w (by omega)
        simp only [List.length_cons]
        omega

/-- A strictly increasing chain ends at least its length above its head. -/
lemma chain_lt_le_getLast : ∀ (l : List Int) (p : Int), List.Chain (· < ·) p l →
    p + l.length ≤ (p :: l).getLast (List.cons_ne_nil p l) := by
  intro l
  induction l with
  | nil =>
    intro p _
    simp
  | cons r rs ih =>
    intro p hch
    obtain ⟨hpr, hch'⟩ := List.chain_cons.mp hch
    have htail := ih r hch'
    rw [List.getLast_cons (List.cons_ne_nil r rs)]
    simp only [List.length_cons] at *
    push_cast at *
    omega

/-- In a `≤`-sorted list every element is at most the last one. -/
lemma sorted_le_getLast : ∀ (l : List Int) (h : l ≠ []), l.Sorted (· ≤ ·) →
    ∀ a ∈ l, a ≤ l.getLast h := by
  intro l
  induction l with
  | nil => intro h; exact absurd rfl h
  | cons x xs ih =>
    intro h hs a ha
    cases xs with
    | nil =>
      rw [List.mem_singleton.mp ha]
      exact le_rfl
    | cons y ys =>
      rw [List.getLast_cons (List.cons_ne_nil y ys)]
      rcases List.mem_cons.mp ha with rfl | ha'
      · exact (List.sorted_cons.mp hs).1 _ (List.getLast_mem (List.cons_ne_nil y ys))
      · exact ih (List.cons_ne_nil y ys) (List.sorted_cons.mp hs).2 a ha'

/-- Over a `≤`-sorted list, strict chaining is exactly the absence of
duplicates. -/
lemma sorted_chain_lt_iff (r0 : Int) (rest : List Int)
    (hs : (r0 :: rest).Sorted (· ≤ ·)) :
    List.Chain (· < ·) r0 rest ↔ (r0 :: rest).Nodup := by
  rw [List.chain_iff_pairwise]
  constructor
  · intro hp
    exact hp.imp (fun h => ne_of_lt h)
  · intro hnd
    exact (hs.and hnd).imp (fun h => lt_of_le_of_ne h.1 h.2)

/-- The scan reaches its bound exactly when the sorted ranks are
strictly increasing and the span is covered by the wild budget. -/
lemma scan_iff : ∀ (rest : List Int) (prev : Int) (c w : Nat), 1 ≤ c →
    List.Chain (· ≤ ·) prev rest →
    (c + w + rest.length ≤
        (seqScanAux prev rest c w).1 + (seqScanAux prev rest c w).2 ↔
      (List.Chain (· < ·) prev rest ∧
       (prev :: rest).getLast (List.cons_ne_nil prev rest) - prev ≤
         (w : Int) + rest.length)) := by
  intro rest
  induction rest with
  | nil =>
    intro prev c w _ _
    simp [seqScanAux]
  | cons r rs ih =>
    intro prev c w hc hchain
    obtain ⟨hle, hchain'⟩ := List.chain_cons.mp hchain
    rw [seqScanAux_cons, List.getLast_cons (List.cons_ne_nil r rs), List.chain_cons]
    by_cases h1 : r - prev = 1
    · rw [if_pos h1]
      have harith : c + w + (r :: rs).length = (c + 1) + w + rs.length := by
        simp only [List.length_cons]
        omega
      rw [harith, ih r (c + 1) w (by omega) hchain']
      constructor
      · rintro ⟨hch, hspan⟩
        refine ⟨⟨by omega, hch⟩, ?_⟩
        simp only [List.length_cons]
        push_cast
        omega
      · rintro ⟨⟨-, hch⟩, hspan⟩
        refine ⟨hch, ?_⟩
        simp only [List.length_cons] at hspan
        push_cast at hspan ⊢
        omega
    · rw [if_neg h1]
      by_cases h2 : 1 < r - prev ∧ r - prev - 1 ≤ (w : Int)
      · rw [if_pos h2]
        have harith : c + w + (r :: rs).length =
            (c + (r - prev).toNat) + (w - (r - prev - 1).toNat) + rs.length := by
          simp only [List.length_cons]
          omega
        rw [harith,
          ih r (c + (r - prev).toNat) (w - (r - prev - 1).toNat) (by omega) hchain']
        constructor
        · rintro ⟨hch, hspan⟩
          refine ⟨⟨by omega, hch⟩, ?_⟩
          simp only [List.length_cons]
          push_cast
          omega
        · rintro ⟨⟨-, hch⟩, hspan⟩
          refine ⟨hch, ?_⟩
          simp only [List.length_cons] at hspan
          push_cast at hspan ⊢
          omega
      · rw [if_neg h2]
        constructor
        · intro h
          exfalso
          have hb := scan_sum_le rs r 1 w (le_refl 1)
          simp only [List.length_cons] at h
          omega
        · rintro ⟨⟨hlt, hch⟩, hspan⟩
          exfalso
          have hlast := chain_lt_le_getLast rs r hch
          simp only [List.length_cons] at hspan
          push_cast at hspan hlast
          omega

/-- The per-suit check of `isSequence` holds exactly when the suit's
non-wild rank values are non-empty, pairwise distinct and have span
`max - min + 1` at most the group size. -/
lemma suitCheck_iff (group : List Card) (jr : Option String) (s : String) :
    suitCheck group jr s = true ↔
      (suitRankValues group jr s ≠ [] ∧ (suitRankValues group jr s).Nodup ∧
       ∀ a ∈ suitRankValues group jr s, ∀ b ∈ suitRankValues group jr s,
         a - b + 1 ≤ (group.length : Int)) := by
  unfold suitCheck suitRankValues
  dsimp only
  cases hsort : ((suitRanks group jr s).map rankValue).insertionSort (· ≤ ·) with
  | nil =>
    have hRnil : (suitRanks group jr s).map rankValue = [] := by
      have hperm := List.perm_insertionSort (· ≤ ·) ((suitRanks group jr s).map rankValue)
      rw [hsort] at hperm
      exact (hperm.symm).eq_nil
    simp [hRnil, List.map_eq_nil_iff.mp hRnil]
  | cons r0 rest =>
    have hperm : (r0 :: rest).Perm ((suitRanks group jr s).map rankValue) := by
      rw [← hsort]
      exact List.perm_insertionSort _ _
    have hsorted : (r0 :: rest).Sorted (· ≤ ·) := by
      rw [← hsort]
      exact List.sorted_insertionSort _ _
    have hRne : (suitRanks group jr s).map rankValue ≠ [] := by
      intro hnil
      rw [hnil] at hperm
      exact absurd hperm.length_eq (by simp)
    have hscne : suitRanks group jr s ≠ [] := by
      intro hnil
      exact hRne (by rw [hnil]; rfl)
    have hempty : (suitRanks group jr s).isEmpty = false := by
      cases h : (suitRanks group jr s).isEmpty
      · rfl
      · exact absurd (List.isEmpty_iff.mp h) hscne
    have hlen_sc : (suitRanks group jr s).length ≤ group.length :=
      List.length_filterMap_le _ _
    have hlenR : rest.length + 1 = (suitRanks group jr s).length := by
      have h1 := hperm.length_eq
      rw [List.length_map] at h1
      simpa using h1
    have hchain : List.Chain (· ≤ ·) r0 rest := List.chain_iff_pairwise.mpr hsorted
    have hiff := scan_iff rest r0 1 (group.length - (suitRanks group jr s).length)
      le_rfl hchain
    have harith : 1 + (group.length - (suitRanks group jr s).length) + rest.length =
        group.length := by omega
    rw [harith] at hiff
    rw [hempty]
    simp only [Bool.not_false, Bool.true_and, decide_eq_true_eq]
    rw [hiff]
    have hcast : ((group.length : Int)) =
        ((group.length - (suitRanks group jr s).length : Nat) : Int) + rest.length + 1 := by
      omega
    constructor
    · rintro ⟨hch, hspan⟩
      refine ⟨hRne, (hperm.nodup_iff).mp ((sorted_chain_lt_iff r0 rest hsorted).mp hch), ?_⟩
      intro a ha b hb
      have ha' : a ∈ (r0 :: rest) := hperm.mem_iff.mpr ha
      have hb' : b ∈ (r0 :: rest) := hperm.mem_iff.mpr hb
      have haLe : a ≤ (r0 :: rest).getLast (List.cons_ne_nil r0 rest) :=
        sorted_le_getLast _ (List.cons_ne_nil r0 rest) hsorted a ha'
      have hbGe : r0 ≤ b := by
        rcases List.mem_cons.mp hb' with rfl | hb''
        · exact le_rfl
        · exact (List.sorted_cons.mp hsorted).1 b hb''
      rw [hcast]
      omega
    · rintro ⟨-, hnodup, hbound⟩
      refine ⟨(sorted_chain_lt_iff r0 rest hsorted).mpr ((hperm.nodup_iff).mpr hnodup), ?_⟩
      have h1 : (r0 :: rest).getLast (List.cons_ne_nil r0 rest) ∈
          (suitRanks group jr s).map rankValue :=
        hperm.subset (List.getLast_mem (List.cons_ne_nil r0 rest))
      have h2 : r0 ∈ (suitRanks group jr s).map rankValue :=
        hperm.subset (List.mem_cons_self r0 rest)
      have := hbound _ h1 _ h2
      rw [hcast] at this
      omega

/-- C1 helper: the full `isSequence` classifier, declaratively. -/
lemma isSequence_iff (group : List Card) (jr : Option String)
    (h3 : 3 ≤ group.length) :
    isSequence group jr = true ↔ seqSpec group jr := by
  unfold isSequence seqSpec
  rw [if_neg (by omega), List.any_eq_true]
  exact exists_congr fun s => and_congr_right fun _ => suitCheck_iff group jr s

/-- C1 helper: the `isSet` classifier, declaratively. -/
lemma isSet_iff (group : List Card) (jr : Option String)
    (h3 : 3 ≤ group.length) :
    isSet group jr = true ↔ setSpec group jr := by
  unfold isSet setSpec
  rw [if_neg (by omega), decide_eq_true_eq]
  constructor
  · intro h a ha b hb
    have ha' : a ∈ (nonWildRanks group jr).dedup := List.mem_dedup.mpr ha
    have hb' : b ∈ (nonWildRanks group jr).dedup := List.mem_dedup.mpr hb
    match hd : (nonWildRanks group jr).dedup with
    | [] =>
      rw [hd] at ha'
      cases ha'
    | [x] =>
      rw [hd] at ha' hb'
      rw [List.mem_singleton.mp ha', List.mem_singleton.mp hb']
    | x :: y :: t =>
      rw [hd] at h
      simp at h
  · intro hall
    match hd : (nonWildRanks group jr).dedup with
    | [] => simp [hd]
    | [x] => simp [hd]
    | x :: y :: t =>
      exfalso
      have hx : x ∈ nonWildRanks group jr := by
        rw [← List.mem_dedup, hd]
        exact List.mem_cons_self _ _
      have hy : y ∈ nonWildRanks group jr := by
        rw [← List.mem_dedup, hd]
        exact List.mem_cons_of_mem _ (List.mem_cons_self _ _)
      have hnd := List.nodup_dedup (nonWildRanks group jr)
      rw [hd, List.nodup_cons] at hnd
      exact hnd.1 ((hall x hx y hy) ▸ List.mem_cons_self _ _)

/-- C1 counterexample: the group `A-H, 2-H, 3-S` has non-wild cards of
two different suits (`H` and `S`), yet `isSequence` classifies it as a
sequence — the off-suit `3-S` is counted as a wild filler for the
`A-H, 2-H` run — and `validateDeclare`'s chain even counts it as a
*pure* sequence (it contains no wild card).  This refutes the claim that
a group with non-wild cards of two different suits is never classified
as a sequence. -/
theorem two_suit_group_classified_sequence :
    isSequence [Card.mk "A" "H", Card.mk "2" "H", Card.mk "3" "S"] none = true ∧
    classifyGroup [Card.mk "A" "H", Card.mk "2" "H", Card.mk "3" "S"] none =
      GroupClass.pureSeq ∧
    (([Card.mk "A" "H", Card.mk "2" "H", Card.mk "3" "S"].filter
        (fun c => !(isWild c none))).filterMap Card.suitKey).dedup.length = 2 := by
  decide

/-- C1 (amended): for every group of at least 3 cards and every joker
rank, the `validateDeclare` classification chain behaves as follows.
The group counts as a sequence exactly when, for some suit occurring in
it, the group's non-wild cards of that suit are non-empty, have pairwise
distinct rank values, and have rank span `max - min + 1` at most the
group size — every other card of the group (wild cards and non-wild
cards of other suits alike) acts as a wild gap filler (`seqSpec`); it is
counted pure exactly when the group additionally contains no wild card,
and impure when it contains one.  A group whose non-wild cards all share
one rank (or that is all wild, `setSpec`) is counted as a set exactly
when it is not also classified as a sequence. -/
theorem validator_group_classification (group : List Card) (jr : Option String)
    (h3 : 3 ≤ group.length) :
    (classifyGroup group jr = GroupClass.pureSeq ↔
      (seqSpec group jr ∧ ∀ c ∈ group, isWild c jr = false)) ∧
    (classifyGroup group jr = GroupClass.impureSeq ↔
      (seqSpec group jr ∧ ∃ c ∈ group, isWild c jr = true)) ∧
    (classifyGroup group jr = GroupClass.set ↔
      (¬seqSpec group jr ∧ setSpec group jr)) := by
  have hceq := classifyGroup_eq group jr
  have hseq := isSequence_iff group jr h3
  have hsetiff := isSet_iff group jr h3
  have hwild : groupHasWild group jr = true ↔ ∃ c ∈ group, isWild c jr = true := by
    unfold groupHasWild
    exact List.any_eq_true
  have hwild' : groupHasWild group jr = false ↔ ∀ c ∈ group, isWild c jr = false := by
    unfold groupHasWild
    rw [List.any_eq_false]
    constructor
    · intro h c hc
      have := h c hc
      cases hb : isWild c jr
      · rfl
      · exact absurd hb this
    · intro h c hc
      rw [h c hc]
      exact Bool.false_ne_true
  have hseq' : isSequence group jr = false ↔ ¬seqSpec group jr := by
    rw [← hseq]
    constructor
    · intro h hT
      rw [h] at hT
      exact Bool.noConfusion hT
    · intro h
      cases hb : isSequence group jr
      · rfl
      · exact absurd hb h
  refine ⟨?_, ?_, ?_⟩
  · rw [hceq.1, hseq, hwild']
  · rw [hceq.2.1, hseq, hwild]
  · rw [hceq.2.2.1, and_comm, hsetiff, hseq']
    rw [and_comm]

/-- C1 witness: `A-H, 2-H, 3-H` with no joker rank is a pure sequence;
the amended classification instantiates to it. -/
theorem validator_group_classification_witness :
    (classifyGroup [Card.mk "A" "H", Card.mk "2" "H", Card.mk "3" "H"] none =
        GroupClass.pureSeq ↔
      (seqSpec [Card.mk "A" "H", Card.mk "2" "H", Card.mk "3" "H"] none ∧
       ∀ c ∈ [Card.mk "A" "H", Card.mk "2" "H", Card.mk "3" "H"],
         isWild c none = false)) ∧
    (classifyGroup [Card.mk "A" "H", Card.mk "2" "H", Card.mk "3" "H"] none =
        GroupClass.impureSeq ↔
      (seqSpec [Card.mk "A" "H", Card.mk "2" "H", Card.mk "3" "H"] none ∧
       ∃ c ∈ [Card.mk "A" "H", Card.mk "2" "H", Card.mk "3" "H"],
         isWild c none = true)) ∧
    (classifyGroup [Card.mk "A" "H", Card.mk "2" "H", Card.mk "3" "H"] none =
        GroupClass.set ↔
      (¬seqSpec [Card.mk "A" "H", Card.mk "2" "H", Card.mk "3" "H"] none ∧
       setSpec [Card.mk "A" "H", Card.mk "2" "H", Card.mk "3" "H"] none)) :=
  validator_group_classification [Card.mk "A" "H", Card.mk "2" "H", Card.mk "3" "H"]
    none (by decide)

/-! ## C9: the bot move -/

/-- A playing room where the bot to move has a one-card hand and the
deck is empty: the bot cannot draw (there is no recycling in `botPlay`),
so its hand shrinks — refuting the claim that the bot move always draws
a card before discarding. -/
def botRoom : Room where
  gameType := 13
  players := [⟨"bot1", true⟩, ⟨"alice", false⟩]
  gameState := "playing"
  deck := []
  discardPile := [Card.mk "2" "H"]
  jokerCard := none
  currentTurnIndex := 0
  turnExpiresAt := none
  hands := fun u => if u = "bot1" then some [Card.mk "A" "H"] else none
  winnerIndex := none

/-- C9 counterexample: in `botRoom` (playing, bot's turn, empty deck),
the bot move discards without drawing: the bot's hand goes from one card
to zero, while a draw-then-discard would have kept its size at one. -/
theorem bot_play_no_draw_counterexample :
    botRoom.gameState = "playing" ∧
    botRoom.players.get? botRoom.currentTurnIndex = some ⟨"bot1", true⟩ ∧
    botRoom.deck = [] ∧
    ((botRoom.hands "bot1").getD []).length = 1 ∧
    (((botPlay botRoom 0 0).room.hands "bot1").getD []).length = 0 ∧
    (botPlay botRoom 0 0).room.discardPile =
      [Card.mk "2" "H", Card.mk "A" "H"] := by decide

/-- C9 (amended): when the current-turn player is not a bot, `botPlay`
is a no-op (no mutation, no save).  When it is a bot, the move never
declares (game state and winner are untouched) and advances the turn by
one step modulo the player count with a fresh 30-second deadline exactly
as a human discard would; when the deck is non-empty the bot pops its
top card into its hand and then discards the card at the sampled index
`⌊Math.random() · |hand|⌋` onto the discard pile; with an empty deck the
draw is skipped and the discard pile is never recycled into the deck —
the deck stays empty and the bot still discards the card at the sampled
index of its unchanged hand. -/
theorem bot_move_behavior (room : Room) (randIdx : Nat) (now : Int) (cp : Player)
    (hcp : room.players.get? room.currentTurnIndex = some cp) :
    (cp.isBot = false → botPlay room randIdx now = ⟨none, room, false⟩) ∧
    (cp.isBot = true →
      (botPlay room randIdx now).error = none ∧
      (botPlay room randIdx now).room.gameState = room.gameState ∧
      (botPlay room randIdx now).room.winnerIndex = room.winnerIndex ∧
      (botPlay room randIdx now).room.currentTurnIndex =
        (room.currentTurnIndex + 1) % room.players.length ∧
      (botPlay room randIdx now).room.turnExpiresAt = some (now + 30 * 1000) ∧
      (∀ c, room.deck.getLast? = some c →
        randIdx < ((room.hands cp.userId).getD [] ++ [c]).length →
        (botPlay room randIdx now).room.deck = room.deck.dropLast ∧
        (botPlay room randIdx now).room.hands cp.userId =
          some (((room.hands cp.userId).getD [] ++ [c]).eraseIdx randIdx) ∧
        (∃ d, ((room.hands cp.userId).getD [] ++ [c]).get? randIdx = some d ∧
          (botPlay room randIdx now).room.discardPile = room.discardPile ++ [d])) ∧
      (room.deck = [] →
        (botPlay room randIdx now).room.deck = room.deck ∧
        (randIdx < ((room.hands cp.userId).getD []).length →
          (botPlay room randIdx now).room.hands cp.userId =
            some (((room.hands cp.userId).getD []).eraseIdx randIdx) ∧
          (∃ d, ((room.hands cp.userId).getD []).get? randIdx = some d ∧
            (botPlay room randIdx now).room.discardPile =
              room.discardPile ++ [d])))) := by
  rcases botPlay_shape room randIdx now with
    ⟨hnone, -⟩ | ⟨cp', hcp', hb', heq⟩ | ⟨cp', hcp', hb', heq⟩
  · rw [hcp] at hnone
    exact Option.noConfusion hnone
  · rw [hcp] at hcp'
    obtain rfl : cp = cp' := Option.some.inj hcp'
    refine ⟨fun _ => heq, fun hbot => absurd (hbot ▸ hb') (by simp)⟩
  · rw [hcp] at hcp'
    obtain rfl : cp = cp' := Option.some.inj hcp'
    refine ⟨fun hbot => ?_, fun _ => ?_⟩
    · rw [hbot] at hb'
      exact Bool.noConfusion hb'
    · have hproj := botPlayCore_proj room cp.userId randIdx now
      refine ⟨by rw [heq], ?_, ?_, ?_, ?_, ?_, ?_⟩
      · rw [heq]
        exact hproj.2.2.1
      · rw [heq]
        exact hproj.2.2.2.1
      · rw [heq]
        exact hproj.1
      · rw [heq]
        exact hproj.2.1
      · intro c hc hrange
        obtain ⟨room1, hand1, hstage1, room2, hstage2, hceq⟩ :=
          botPlayCore_cases room cp.userId randIdx now
        rcases hstage1 with ⟨hnone', -, -⟩ | ⟨c', hc', hh1, hr1⟩
        · rw [hc] at hnone'
          exact Option.noConfusion hnone'
        · rw [hc] at hc'
          obtain rfl : c = c' := Option.some.inj hc'
          have hne' : hand1 ≠ [] := by
            rw [hh1]
            simp
          have hlen : randIdx < hand1.length := by
            rw [hh1]
            exact hrange
          have hg : hand1.get? randIdx = some (hand1.get ⟨randIdx, hlen⟩) :=
            List.get?_eq_get hlen
          rcases hstage2 with ⟨hE, -⟩ | ⟨-, ⟨d, hgd, hr2⟩ | ⟨hgn, -⟩⟩
          · exact absurd (List.isEmpty_iff.mp hE) hne'
          · refine ⟨?_, ?_, d, ?_, ?_⟩
            · rw [heq, hceq, hr2, hr1]
            · rw [heq, hceq, hr2]
              show setHand room1.hands cp.userId (hand1.eraseIdx randIdx) cp.userId =
                some (((room.hands cp.userId).getD [] ++ [c]).eraseIdx randIdx)
              rw [← hh1]
              simp [setHand]
            · rw [← hh1]
              exact hgd
            · rw [heq, hceq, hr2, hr1]
          · rw [hgn] at hg
            exact Option.noConfusion hg
      · intro hdeck
        obtain ⟨room1, hand1, hstage1, room2, hstage2, hceq⟩ :=
          botPlayCore_cases room cp.userId randIdx now
        rcases hstage1 with ⟨-, hr1, hh1⟩ | ⟨c', hc', -, -⟩
        · constructor
          · rcases hstage2 with ⟨-, hr2⟩ | ⟨-, ⟨d, -, hr2⟩ | ⟨-, hr2⟩⟩ <;>
              rw [heq, hceq, hr2, hr1]
          · intro hrange
            have hlen : randIdx < hand1.length := by
              rw [hh1]
              exact hrange
            have hne' : hand1 ≠ [] := by
              intro hnil
              rw [hnil] at hlen
              simp at hlen
            have hg : hand1.get? randIdx = some (hand1.get ⟨randIdx, hlen⟩) :=
              List.get?_eq_get hlen
            rcases hstage2 with ⟨hE, -⟩ | ⟨-, ⟨d, hgd, hr2⟩ | ⟨hgn, -⟩⟩
            · exact absurd (List.isEmpty_iff.mp hE) hne'
            · refine ⟨?_, d, ?_, ?_⟩
              · rw [heq, hceq, hr2, hr1]
                show setHand room.hands cp.userId (hand1.eraseIdx randIdx) cp.userId =
                  some (((room.hands cp.userId).getD []).eraseIdx randIdx)
                rw [← hh1]
                simp [setHand]
              · rw [← hh1]
                exact hgd
              · rw [heq, hceq, hr2, hr1]
            · rw [hgn] at hg
              exact Option.noConfusion hg
        · rw [hdeck] at hc'
          exact Option.noConfusion hc'

/-- A playing room with the bot to move and a non-empty deck, for the
C9 witness. -/
def botRoom2 : Room where
  gameType := 13
  players := [⟨"bot1", true⟩, ⟨"alice", false⟩]
  gameState := "playing"
  deck := [Card.mk "3" "C"]
  discardPile := [Card.mk "2" "H"]
  jokerCard := none
  currentTurnIndex := 0
  turnExpiresAt := none
  hands := fun u => if u = "bot1" then some [Card.mk "A" "H"] else none
  winnerIndex := none

theorem bot_move_behavior_witness :
    (((⟨"bot1", true⟩ : Player).isBot = false →
      botPlay botRoom2 0 0 = ⟨none, botRoom2, false⟩) ∧
    ((⟨"bot1", true⟩ : Player).isBot = true →
      (botPlay botRoom2 0 0).error = none ∧
      (botPlay botRoom2 0 0).room.gameState = botRoom2.gameState ∧
      (botPlay botRoom2 0 0).room.winnerIndex = botRoom2.winnerIndex ∧
      (botPlay botRoom2 0 0).room.currentTurnIndex =
        (botRoom2.currentTurnIndex + 1) % botRoom2.players.length ∧
      (botPlay botRoom2 0 0).room.turnExpiresAt = some (0 + 30 * 1000) ∧
      (∀ c, botRoom2.deck.getLast? = some c →
        0 < ((botRoom2.hands (Player.mk "bot1" true).userId).getD [] ++ [c]).length →
        (botPlay botRoom2 0 0).room.deck = botRoom2.deck.dropLast ∧
        (botPlay botRoom2 0 0).room.hands (Player.mk "bot1" true).userId =
          some (((botRoom2.hands (Player.mk "bot1" true).userId).getD [] ++ [c]).eraseIdx 0) ∧
        (∃ d, ((botRoom2.hands (Player.mk "bot1" true).userId).getD [] ++ [c]).get? 0 =
            some d ∧
          (botPlay botRoom2 0 0).room.discardPile = botRoom2.discardPile ++ [d])) ∧
      (botRoom2.deck = [] →
        (botPlay botRoom2 0 0).room.deck = botRoom2.deck ∧
        (0 < ((botRoom2.hands (Player.mk "bot1" true).userId).getD []).length →
          (botPlay botRoom2 0 0).room.hands (Player.mk "bot1" true).userId =
            some (((botRoom2.hands (Player.mk "bot1" true).userId).getD []).eraseIdx 0) ∧
          (∃ d, ((botRoom2.hands (Player.mk "bot1" true).userId).getD []).get? 0 =
              some d ∧
            (botPlay botRoom2 0 0).room.discardPile =
              botRoom2.discardPile ++ [d]))))) ∧
    (((⟨"bot1", true⟩ : Player).isBot = false →
      botPlay botRoom 0 0 = ⟨none, botRoom, false⟩) ∧
    ((⟨"bot1", true⟩ : Player).isBot = true →
      (botPlay botRoom 0 0).error = none ∧
      (botPlay botRoom 0 0).room.gameState = botRoom.gameState ∧
      (botPlay botRoom 0 0).room.winnerIndex = botRoom.winnerIndex ∧
      (botPlay botRoom 0 0).room.currentTurnIndex =
        (botRoom.currentTurnIndex + 1) % botRoom.players.length ∧
      (botPlay botRoom 0 0).room.turnExpiresAt = some (0 + 30 * 1000) ∧
      (∀ c, botRoom.deck.getLast? = some c →
        0 < ((botRoom.hands (Player.mk "bot1" true).userId).getD [] ++ [c]).length →
        (botPlay botRoom 0 0).room.deck = botRoom.deck.dropLast ∧
        (botPlay botRoom 0 0).room.hands (Player.mk "bot1" true).userId =
          some (((botRoom.hands (Player.mk "bot1" true).userId).getD [] ++ [c]).eraseIdx 0) ∧
        (∃ d, ((botRoom.hands (Player.mk "bot1" true).userId).getD [] ++ [c]).get? 0 =
            some d ∧
          (botPlay botRoom 0 0).room.discardPile = botRoom.discardPile ++ [d])) ∧
      (botRoom.deck = [] →
        (botPlay botRoom 0 0).room.deck = botRoom.deck ∧
        (0 < ((botRoom.hands (Player.mk "bot1" true).userId).getD []).length →
          (botPlay botRoom 0 0).room.hands (Player.mk "bot1" true).userId =
            some (((botRoom.hands (Player.mk "bot1" true).userId).getD []).eraseIdx 0) ∧
          (∃ d, ((botRoom.hands (Player.mk "bot1" true).userId).getD []).get? 0 =
              some d ∧
            (botPlay botRoom 0 0).room.discardPile =
              botRoom.discardPile ++ [d]))))) :=
  ⟨bot_move_behavior botRoom2 0 0 ⟨"bot1", true⟩ rfl,
   bot_move_behavior botRoom 0 0 ⟨"bot1", true⟩ rfl⟩

end Rummy
